import Mathlib

/-!
Verification of the client-side state-synchronization and analytics engine of
the LLM-Enhanced Multi-Agent Trading System dashboard.

The definitions below are a shallow embedding of the dashboard script
(`static/js/dashboard.js`, full variant): the module-level mutable variables
(`simulationHistory`, `priceChart.data`, `agentPerformance`, `actionCounts`,
`isPaused`, `traderHistory`) become the fields of an explicit `DashState`, and
each handler becomes a state-transition function.  JavaScript numbers are
modelled as exact rationals (`ℚ`), with the IEEE special values `NaN` /
`Infinity` made explicit via `JsNum` where division can produce them.
-/

/-- Does `needle` occur at the start of `hay`?  (Character-list core of
JavaScript `String.prototype.startsWith`.) -/
def chStarts : List Char → List Char → Bool
  | [], _ => true
  | _ :: _, [] => false
  | n :: ns, h :: hs => n = h && chStarts ns hs

/-- Does `needle` occur contiguously anywhere in `hay`?  (Character-list core
of JavaScript `String.prototype.includes`: case-sensitive substring test.) -/
def chHasSub (needle : List Char) : List Char → Bool
  | [] => chStarts needle []
  | h :: hs => chStarts needle (h :: hs) || chHasSub needle hs

/-- JavaScript `hay.includes(target)`: case-sensitive substring containment. -/
def jsIncludes (hay target : String) : Bool :=
  chHasSub target.data hay.data

/-- Decimal digit value of a character, if it is one of `'0'..'9'`. -/
def digitVal? (c : Char) : Option Nat :=
  if '0' ≤ c ∧ c ≤ '9' then some (c.toNat - 48) else none

/-- Hexadecimal digit value of a character (`0-9`, `a-f`, `A-F`). -/
def hexVal? (c : Char) : Option Nat :=
  if '0' ≤ c ∧ c ≤ '9' then some (c.toNat - 48)
  else if 'a' ≤ c ∧ c ≤ 'f' then some (c.toNat - 87)
  else if 'A' ≤ c ∧ c ≤ 'F' then some (c.toNat - 55)
  else none

/-- Split off the longest prefix of characters recognised by `dv`, returning
their digit values and the rest of the input. -/
def takeDigits (dv : Char → Option Nat) : List Char → List Nat × List Char
  | [] => ([], [])
  | c :: cs =>
    match dv c with
    | some d => let (ds, r) := takeDigits dv cs; (d :: ds, r)
    | none => ([], c :: cs)

/-- Value of a big-endian digit list in the given base. -/
def digitsToNat (base : Nat) (ds : List Nat) : Nat :=
  ds.foldl (fun a d => a * base + d) 0

/-- JavaScript `Number.parseInt(s)` with no radix argument: skip leading
whitespace, read an optional sign, honour a `0x`/`0X` hexadecimal prefix,
then take the longest digit prefix; `none` models the `NaN` result when no
digit is found. -/
def jsParseInt (s : String) : Option Int :=
  let cs := s.data.dropWhile (fun c => c = ' ' ∨ c = '\t' ∨ c = '\n' ∨ c = '\r')
  let signed : Int × List Char :=
    match cs with
    | '-' :: r => (-1, r)
    | '+' :: r => (1, r)
    | r => (1, r)
  let body : Nat × List Char → Option Int := fun (v, _) => some (signed.1 * v)
  match signed.2 with
  | '0' :: 'x' :: r =>
    match takeDigits hexVal? r with
    | ([], _) => none
    | (ds, rest) => body (digitsToNat 16 ds, rest)
  | '0' :: 'X' :: r =>
    match takeDigits hexVal? r with
    | ([], _) => none
    | (ds, rest) => body (digitsToNat 16 ds, rest)
  | r =>
    match takeDigits digitVal? r with
    | ([], _) => none
    | (ds, rest) => body (digitsToNat 10 ds, rest)

/-- A JavaScript number that may be one of the IEEE special values.  Finite
values are carried exactly as rationals (exact for every computation the
dashboard performs on the claims' inputs). -/
inductive JsNum where
  | num (q : ℚ)
  | nan
  | posInf
  | negInf
deriving DecidableEq

/-- JavaScript division `a / b` on finite operands: division by zero yields
`Infinity` / `-Infinity` / `NaN` according to the sign of the numerator
(rationals carry no negative zero, matching the values that reach this code). -/
def jsDiv (a b : ℚ) : JsNum :=
  if b = 0 then
    if a = 0 then JsNum.nan else if 0 < a then JsNum.posInf else JsNum.negInf
  else JsNum.num (a / b)

/-- JavaScript multiplication of a possibly-special left operand by a finite
rational. -/
def jsMul (x : JsNum) (c : ℚ) : JsNum :=
  match x with
  | JsNum.num q => JsNum.num (q * c)
  | JsNum.nan => JsNum.nan
  | JsNum.posInf => if c = 0 then JsNum.nan else if 0 < c then JsNum.posInf else JsNum.negInf
  | JsNum.negInf => if c = 0 then JsNum.nan else if 0 < c then JsNum.negInf else JsNum.posInf

/-- Little-endian decimal digits of `n`, bounded by `fuel` digits. -/
def natDigitsRev (fuel n : Nat) : List Nat :=
  match fuel with
  | 0 => []
  | fuel + 1 => if n = 0 then [] else n % 10 :: natDigitsRev fuel (n / 10)

/-- Big-endian decimal character string of a natural number (`"0"` for zero). -/
def natDecChars (n : Nat) : List Char :=
  if n = 0 then ['0'] else ((natDigitsRev (n + 1) n).reverse).map Nat.digitChar

/-- Left-pad a digit string with `'0'` up to width `e`. -/
def padLeftZeros (e : Nat) (ds : List Char) : List Char :=
  List.replicate (e - ds.length) '0' ++ ds

/-- JavaScript `x.toFixed(2)`: the special values print their names; a finite
value is formatted sign-first from `|x|`, rounding the hundredths digit to the
nearest integer with ties taken upward, exactly as ECMA-262 specifies. -/
def toFixed2 : JsNum → String
  | JsNum.nan => "NaN"
  | JsNum.posInf => "Infinity"
  | JsNum.negInf => "-Infinity"
  | JsNum.num q =>
    let sign : String := if q < 0 then "-" else ""
    let n : Nat := (round (|q| * 100)).toNat
    sign ++ String.mk (natDecChars (n / 100)) ++ "." ++
      String.mk (padLeftZeros 2 (natDecChars (n % 100)))

/-- One baseline trader's entry in a snapshot's `decisions` array. -/
structure AgentDecision where
  name : String
  action : String
  cash : ℚ
  pos : ℚ
  value : ℚ
deriving DecidableEq

/-- The optional `general_analysis` block of the LLM pipeline payload. -/
structure GeneralAnalysis where
  stance : String
  text : String
deriving DecidableEq

/-- The LLM trader's proposal block. -/
structure Proposal where
  action : String
  size : ℚ
  rationale : String
deriving DecidableEq

/-- One risk agent's assessment in the LLM pipeline payload. -/
structure RiskAssessment where
  name : String
  approved : Bool
  size : ℚ
  comment : String
deriving DecidableEq

/-- The manager agent's final decision in the LLM pipeline payload. -/
structure ManagerDecision where
  approved : Bool
  final_action : String
  final_size : ℚ
  comment : String
deriving DecidableEq

/-- The LLM fund's portfolio figures. -/
structure Portfolio where
  cash : ℚ
  pos : ℚ
  value : ℚ
deriving DecidableEq

/-- The `llm` object of a step snapshot. -/
structure LLMSnapshot where
  bullish : String
  bearish : String
  general_analysis : Option GeneralAnalysis
  proposal : Proposal
  risk_assessments : List RiskAssessment
  manager_decision : ManagerDecision
  portfolio : Portfolio
deriving DecidableEq

/-- One `update` event payload: a full step snapshot as pushed by the server. -/
structure StepSnapshot where
  step : Int
  total_steps : Int
  price : ℚ
  news : String
  decisions : List AgentDecision
  llm : LLMSnapshot
deriving DecidableEq

/-- The `actionCounts` object: cumulative buy/sell/hold counters. -/
structure ActionTally where
  buy : Nat
  sell : Nat
  hold : Nat
deriving DecidableEq

/-- One record appended to `traderHistory[name]` by `trackTraderHistory`. -/
structure LedgerRecord where
  step : Int
  action : String
  cash : ℚ
  position : ℚ
  value : ℚ
deriving DecidableEq

/-- The dashboard's module-level mutable state, gathered into one record.
`priceLabels`/`priceData` are the price chart's parallel `labels`/`data`
arrays; `agentPerformance` and `traderHistory` are JavaScript objects, kept
here as insertion-ordered association lists. -/
structure DashState where
  simulationHistory : List StepSnapshot
  priceLabels : List String
  priceData : List ℚ
  agentPerformance : List (String × ℚ)
  actionCounts : ActionTally
  isPaused : Bool
  traderHistory : List (String × List LedgerRecord)
deriving DecidableEq

/-- The state at page load: every collection empty, pause flag clear. -/
def initState : DashState :=
  { simulationHistory := []
    priceLabels := []
    priceData := []
    agentPerformance := []
    actionCounts := { buy := 0, sell := 0, hold := 0 }
    isPaused := false
    traderHistory := [] }

/-- JavaScript object property write `m[k] = v`: an existing key keeps its
position and takes the new value, a fresh key is appended. -/
def assocSet {α : Type} (m : List (String × α)) (k : String) (v : α) : List (String × α) :=
  if m.any (fun p => p.1 = k) then m.map (fun p => if p.1 = k then (p.1, v) else p)
  else m ++ [(k, v)]

/-- JavaScript object property read `m[k]`, `none` for a missing key. -/
def assocGet? {α : Type} (m : List (String × α)) (k : String) : Option α :=
  (m.find? (fun p => p.1 = k)).map Prod.snd

/-- `updatePriceChart(price, step)`: guarded by the pause flag, push the
`"Step <n>"` label and the price onto the chart's parallel arrays, then shift
both once when the label array exceeds 30 entries.  (The `!priceChart` guard
of the source is the not-yet-initialised-chart case, absent after page load.) -/
def updatePriceChart (s : DashState) (price : ℚ) (step : Int) : DashState :=
  if s.isPaused then s
  else
    let labels := s.priceLabels ++ ["Step " ++ toString step]
    let data := s.priceData ++ [price]
    if labels.length > 30 then
      { s with priceLabels := labels.drop 1, priceData := data.drop 1 }
    else
      { s with priceLabels := labels, priceData := data }

/-- The body of the `decisions.forEach` loop of `updateAgents`: record the
agent's value in `agentPerformance[name]`, then increment the matching action
counter.  The source guard is `agent.action in actionCounts`; for the three
own keys it increments that counter, and any other action leaves all three
counters unchanged (an action naming an inherited `Object.prototype` member
merely clobbers an unrelated property, never the three counters). -/
def updateAgentsStep (s : DashState) (agent : AgentDecision) : DashState :=
  let s := { s with agentPerformance := assocSet s.agentPerformance agent.name agent.value }
  if agent.action = "buy" then
    { s with actionCounts := { s.actionCounts with buy := s.actionCounts.buy + 1 } }
  else if agent.action = "sell" then
    { s with actionCounts := { s.actionCounts with sell := s.actionCounts.sell + 1 } }
  else if agent.action = "hold" then
    { s with actionCounts := { s.actionCounts with hold := s.actionCounts.hold + 1 } }
  else s

/-- `updateAgents(decisions)`: run `updateAgentsStep` over the decisions in
order.  (The DOM list rebuild and the chart redraw carry no store state.) -/
def updateAgents (s : DashState) (decisions : List AgentDecision) : DashState :=
  decisions.foldl updateAgentsStep s

/-- The store effect of `updateLLMPipeline(llm)`: record the LLM fund's
portfolio value under the synthetic name `"LLM Fund"`. -/
def updateLLMPipeline (s : DashState) (llm : LLMSnapshot) : DashState :=
  { s with agentPerformance := assocSet s.agentPerformance "LLM Fund" llm.portfolio.value }

/-- `traderHistory[k].push(r)`, creating `traderHistory[k] = []` first when the
key is missing (`if (!traderHistory[k]) traderHistory[k] = []`). -/
def ledgerPush (m : List (String × List LedgerRecord)) (k : String) (r : LedgerRecord) :
    List (String × List LedgerRecord) :=
  if m.any (fun p => p.1 = k) then m.map (fun p => if p.1 = k then (p.1, p.2 ++ [r]) else p)
  else m ++ [(k, [r])]

/-- The record `trackTraderHistory` pushes for one baseline agent decision. -/
def decisionRecord (step : Int) (agent : AgentDecision) : LedgerRecord :=
  { step := step, action := agent.action, cash := agent.cash
    position := agent.pos, value := agent.value }

/-- The record `trackTraderHistory` pushes for the LLM fund: the manager's
final action together with the portfolio figures. -/
def llmRecord (step : Int) (llm : LLMSnapshot) : LedgerRecord :=
  { step := step, action := llm.manager_decision.final_action
    cash := llm.portfolio.cash, position := llm.portfolio.pos
    value := llm.portfolio.value }

/-- `trackTraderHistory(decisions, step, llm)`: append one ledger record per
decision, then one for `"LLM Fund"`. -/
def trackTraderHistory (s : DashState) (decisions : List AgentDecision) (step : Int)
    (llm : LLMSnapshot) : DashState :=
  let s := decisions.foldl
    (fun s agent =>
      { s with traderHistory := ledgerPush s.traderHistory agent.name (decisionRecord step agent) }) s
  { s with traderHistory := ledgerPush s.traderHistory "LLM Fund" (llmRecord step llm) }

/-- The `socket.on("update")` handler on a well-formed snapshot: drop it
outright while paused, otherwise append it to `simulationHistory` and run the
component updates in source order.  (`updateNews`, `updatePortfolioStats` and
`updatePerformanceChart` read state but mutate none of the store fields.) -/
def onUpdate (s : DashState) (data : StepSnapshot) : DashState :=
  if s.isPaused then s
  else
    let s := { s with simulationHistory := s.simulationHistory ++ [data] }
    let s := updatePriceChart s data.price data.step
    let s := updateAgents s data.decisions
    let s := updateLLMPipeline s data.llm
    trackTraderHistory s data.decisions data.step data.llm

/-- The store effect of the `startBtn` click handler: re-initialise
`agentPerformance`, `actionCounts`, `simulationHistory` and `traderHistory`
(then `socket.emit("start_simulation")`).  The handler touches neither
`isPaused` nor the price chart's accumulated `labels`/`data` arrays. -/
def startReset (s : DashState) : DashState :=
  { s with agentPerformance := []
           actionCounts := { buy := 0, sell := 0, hold := 0 }
           simulationHistory := []
           traderHistory := [] }

/-- The store effect of the `simulation_finished` handler:
`simulationHistory = data.history || simulationHistory` — any supplied array
(a JavaScript array is truthy even when empty) replaces the history, a missing
one keeps it; ledgers are untouched. -/
def onSimulationFinished (s : DashState) (history : Option (List StepSnapshot)) : DashState :=
  match history with
  | some h => { s with simulationHistory := h }
  | none => s

/-- The sentiment decision list of `updateNews`: an ordered rule list over
case-sensitive substring tests, first match wins, defaulting to the source's
literal `"neutral"`. -/
def classify (news : String) : String :=
  if jsIncludes news "Very positive" || jsIncludes news "rally" then "Bullish"
  else if jsIncludes news "positive" || jsIncludes news "upward" then "Positive"
  else if jsIncludes news "Very negative" || jsIncludes news "crash" then "Bearish"
  else if jsIncludes news "negative" || jsIncludes news "declin" then "Negative"
  else "neutral"

/-- The per-entry filter of `renderHistory`: in `"step"` mode keep the entry
whose 1-based index strictly equals `Number.parseInt(searchTerm)` (a `NaN`
parse, modelled `none`, differs from every index); in `"news"` mode keep
entries whose news text contains the term; any other mode keeps everything. -/
def keepInHistory (filter searchTerm : String) (index : Nat) (st : StepSnapshot) : Bool :=
  if filter = "step" ∧ jsParseInt searchTerm ≠ some ((index : Int) + 1) then false
  else if filter = "news" ∧ ¬ jsIncludes st.news searchTerm then false
  else true

/-- `renderHistory(history, filter, searchTerm)`: the (index, record) pairs
appended to the history container, in order. -/
def renderHistory (history : List StepSnapshot) (filter searchTerm : String) :
    List (Nat × StepSnapshot) :=
  history.enum.filter (fun p => keepInHistory filter searchTerm p.1 p.2)

/-- The `totalReturn` computation of `renderTraderHistory`:
`((endValue - startValue) / startValue) * 100` over the first and last ledger
records.  (On an empty ledger the source would throw reading `history[0]`;
ledger entries are never empty, see the key-creation invariant.) -/
def totalReturnOf : List LedgerRecord → JsNum
  | [] => JsNum.nan
  | h :: t =>
    let startValue := h.value
    let endValue := (List.getLastD (h :: t) h).value
    jsMul (jsDiv (endValue - startValue) startValue) 100

/-- The `Total Trades` figure of `renderTraderHistory`: records whose action
differs from `"hold"`. -/
def tradeCountOf (history : List LedgerRecord) : Nat :=
  (history.filter (fun h => h.action ≠ "hold")).length

/-- A JavaScript exception escaping the `update` handler (the only kind the
handler can raise on a malformed snapshot is a `TypeError` from a property
access or method call on `undefined`). -/
inductive JsError where
  | typeError
deriving DecidableEq

/-- An inbound `update` payload as it actually arrives on the wire: any of the
required top-level fields may be absent (`undefined`), modelled with `Option`.
Elements of a present `decisions` array are taken well-formed. -/
structure RawSnapshot where
  step : Option Int
  total_steps : Option Int
  price : Option ℚ
  news : Option String
  decisions : Option (List AgentDecision)
  llm : Option LLMSnapshot
deriving DecidableEq

/-- A `traderHistory` record built from a raw payload: a missing `step` field
is pushed as `undefined` without error, so the step is optional here. -/
structure RawLedgerRecord where
  step : Option Int
  action : String
  cash : ℚ
  position : ℚ
  value : ℚ
deriving DecidableEq

/-- The dashboard store when fed raw payloads: `simulationHistory.push(data)`
stores the raw object, and the price chart may hold `undefined` entries
(`push` accepts them without error). -/
structure RawState where
  history : List RawSnapshot
  priceLabels : List (Option Int)
  priceData : List (Option ℚ)
  agentPerformance : List (String × ℚ)
  actionCounts : ActionTally
  isPaused : Bool
  traderHistory : List (String × List RawLedgerRecord)
deriving DecidableEq

/-- `updatePriceChart` on a raw payload: both `push` calls succeed even on
`undefined` arguments (the label is the string `"Step undefined"`, kept here
as the pushed step field), and the trim logic is unchanged. -/
def updatePriceChartRaw (s : RawState) (price : Option ℚ) (step : Option Int) : RawState :=
  if s.isPaused then s
  else
    let labels := s.priceLabels ++ [step]
    let data := s.priceData ++ [price]
    if labels.length > 30 then
      { s with priceLabels := labels.drop 1, priceData := data.drop 1 }
    else
      { s with priceLabels := labels, priceData := data }

/-- `updateAgents` loop body on the raw store (identical mutation to
`updateAgentsStep`). -/
def updateAgentsStepRaw (s : RawState) (agent : AgentDecision) : RawState :=
  let s := { s with agentPerformance := assocSet s.agentPerformance agent.name agent.value }
  if agent.action = "buy" then
    { s with actionCounts := { s.actionCounts with buy := s.actionCounts.buy + 1 } }
  else if agent.action = "sell" then
    { s with actionCounts := { s.actionCounts with sell := s.actionCounts.sell + 1 } }
  else if agent.action = "hold" then
    { s with actionCounts := { s.actionCounts with hold := s.actionCounts.hold + 1 } }
  else s

/-- `ledgerPush` for the raw record type. -/
def ledgerPushRaw (m : List (String × List RawLedgerRecord)) (k : String) (r : RawLedgerRecord) :
    List (String × List RawLedgerRecord) :=
  if m.any (fun p => p.1 = k) then m.map (fun p => if p.1 = k then (p.1, p.2 ++ [r]) else p)
  else m ++ [(k, [r])]

/-- `trackTraderHistory` on the raw store: same appends as the well-formed
variant, with the possibly-`undefined` step stored verbatim. -/
def trackTraderHistoryRaw (s : RawState) (decisions : List AgentDecision) (step : Option Int)
    (llm : LLMSnapshot) : RawState :=
  let s := decisions.foldl
    (fun s agent =>
      let r : RawLedgerRecord :=
        { step := step, action := agent.action, cash := agent.cash
          position := agent.pos, value := agent.value }
      { s with traderHistory := ledgerPushRaw s.traderHistory agent.name r }) s
  let r : RawLedgerRecord :=
    { step := step, action := llm.manager_decision.final_action
      cash := llm.portfolio.cash, position := llm.portfolio.pos
      value := llm.portfolio.value }
  { s with traderHistory := ledgerPushRaw s.traderHistory "LLM Fund" r }

/-- The `socket.on("update")` handler on a raw payload, mutation for mutation
in source order, together with the first JavaScript exception it raises.  The
handler performs no validation: the snapshot is pushed into
`simulationHistory` and the price chart before any field that could throw is
touched.  Throw sites, in order: `news.includes` on `undefined`;
`decisions.forEach` on `undefined`; `llm.bullish` property access on
`undefined`; `price.toFixed(2)` inside `updatePortfolioStats` (reached before
`trackTraderHistory`); finally `updatePerformanceChart` re-reads
`step.decisions`/`step.llm` of every stored snapshot, so a defective snapshot
already in the history throws there, after all of this call's mutations. -/
def onUpdateRaw (s : RawState) (data : RawSnapshot) : RawState × Option JsError :=
  if s.isPaused then (s, none)
  else
    let s1 := { s with history := s.history ++ [data] }
    let s2 := updatePriceChartRaw s1 data.price data.step
    match data.news with
    | none => (s2, some JsError.typeError)
    | some _ =>
      match data.decisions with
      | none => (s2, some JsError.typeError)
      | some ds =>
        let s3 := ds.foldl updateAgentsStepRaw s2
        match data.llm with
        | none => (s3, some JsError.typeError)
        | some llm =>
          let s4 := { s3 with agentPerformance := assocSet s3.agentPerformance "LLM Fund" llm.portfolio.value }
          match data.price with
          | none => (s4, some JsError.typeError)
          | some _ =>
            let s5 := trackTraderHistoryRaw s4 ds data.step llm
            if s5.history.all (fun r => r.decisions.isSome && r.llm.isSome) then (s5, none)
            else (s5, some JsError.typeError)

/-- A projection preserved by every step of a fold is preserved by the fold. -/
theorem foldl_preserves {α β γ : Type} {f : β → α → β} {g : β → γ}
    (h : ∀ b a, g (f b a) = g b) : ∀ (l : List α) (b : β), g (l.foldl f b) = g b
  | [], _ => rfl
  | a :: l, b => by rw [List.foldl_cons, foldl_preserves h l (f b a), h]

@[simp] theorem updateAgentsStep_simulationHistory (s : DashState) (a : AgentDecision) :
    (updateAgentsStep s a).simulationHistory = s.simulationHistory := by
  simp only [updateAgentsStep]
  repeat' split
  all_goals rfl

@[simp] theorem updateAgentsStep_priceLabels (s : DashState) (a : AgentDecision) :
    (updateAgentsStep s a).priceLabels = s.priceLabels := by
  simp only [updateAgentsStep]
  repeat' split
  all_goals rfl

@[simp] theorem updateAgentsStep_priceData (s : DashState) (a : AgentDecision) :
    (updateAgentsStep s a).priceData = s.priceData := by
  simp only [updateAgentsStep]
  repeat' split
  all_goals rfl

@[simp] theorem updateAgentsStep_isPaused (s : DashState) (a : AgentDecision) :
    (updateAgentsStep s a).isPaused = s.isPaused := by
  simp only [updateAgentsStep]
  repeat' split
  all_goals rfl

@[simp] theorem updateAgentsStep_traderHistory (s : DashState) (a : AgentDecision) :
    (updateAgentsStep s a).traderHistory = s.traderHistory := by
  simp only [updateAgentsStep]
  repeat' split
  all_goals rfl

@[simp] theorem updateAgents_simulationHistory (s : DashState) (ds : List AgentDecision) :
    (updateAgents s ds).simulationHistory = s.simulationHistory :=
  foldl_preserves (fun _ _ => updateAgentsStep_simulationHistory _ _) ds s

@[simp] theorem updateAgents_priceLabels (s : DashState) (ds : List AgentDecision) :
    (updateAgents s ds).priceLabels = s.priceLabels :=
  foldl_preserves (fun _ _ => updateAgentsStep_priceLabels _ _) ds s

@[simp] theorem updateAgents_priceData (s : DashState) (ds : List AgentDecision) :
    (updateAgents s ds).priceData = s.priceData :=
  foldl_preserves (fun _ _ => updateAgentsStep_priceData _ _) ds s

@[simp] theorem updateAgents_isPaused (s : DashState) (ds : List AgentDecision) :
    (updateAgents s ds).isPaused = s.isPaused :=
  foldl_preserves (fun _ _ => updateAgentsStep_isPaused _ _) ds s

@[simp] theorem updateAgents_traderHistory (s : DashState) (ds : List AgentDecision) :
    (updateAgents s ds).traderHistory = s.traderHistory :=
  foldl_preserves (fun _ _ => updateAgentsStep_traderHistory _ _) ds s

@[simp] theorem updateLLMPipeline_simulationHistory (s : DashState) (llm : LLMSnapshot) :
    (updateLLMPipeline s llm).simulationHistory = s.simulationHistory := rfl

@[simp] theorem updateLLMPipeline_priceLabels (s : DashState) (llm : LLMSnapshot) :
    (updateLLMPipeline s llm).priceLabels = s.priceLabels := rfl

@[simp] theorem updateLLMPipeline_priceData (s : DashState) (llm : LLMSnapshot) :
    (updateLLMPipeline s llm).priceData = s.priceData := rfl

@[simp] theorem updateLLMPipeline_isPaused (s : DashState) (llm : LLMSnapshot) :
    (updateLLMPipeline s llm).isPaused = s.isPaused := rfl

@[simp] theorem updateLLMPipeline_actionCounts (s : DashState) (llm : LLMSnapshot) :
    (updateLLMPipeline s llm).actionCounts = s.actionCounts := rfl

@[simp] theorem updateLLMPipeline_traderHistory (s : DashState) (llm : LLMSnapshot) :
    (updateLLMPipeline s llm).traderHistory = s.traderHistory := rfl

@[simp] theorem trackTraderHistory_simulationHistory (s : DashState) (ds : List AgentDecision)
    (step : Int) (llm : LLMSnapshot) :
    (trackTraderHistory s ds step llm).simulationHistory = s.simulationHistory := by
  simp only [trackTraderHistory]
  apply foldl_preserves
  intro b a
  rfl

@[simp] theorem trackTraderHistory_priceLabels (s : DashState) (ds : List AgentDecision)
    (step : Int) (llm : LLMSnapshot) :
    (trackTraderHistory s ds step llm).priceLabels = s.priceLabels := by
  simp only [trackTraderHistory]
  apply foldl_preserves
  intro b a
  rfl

@[simp] theorem trackTraderHistory_priceData (s : DashState) (ds : List AgentDecision)
    (step : Int) (llm : LLMSnapshot) :
    (trackTraderHistory s ds step llm).priceData = s.priceData := by
  simp only [trackTraderHistory]
  apply foldl_preserves
  intro b a
  rfl

@[simp] theorem trackTraderHistory_isPaused (s : DashState) (ds : List AgentDecision)
    (step : Int) (llm : LLMSnapshot) :
    (trackTraderHistory s ds step llm).isPaused = s.isPaused := by
  simp only [trackTraderHistory]
  apply foldl_preserves
  intro b a
  rfl

@[simp] theorem trackTraderHistory_actionCounts (s : DashState) (ds : List AgentDecision)
    (step : Int) (llm : LLMSnapshot) :
    (trackTraderHistory s ds step llm).actionCounts = s.actionCounts := by
  simp only [trackTraderHistory]
  apply foldl_preserves
  intro b a
  rfl

@[simp] theorem trackTraderHistory_agentPerformance (s : DashState) (ds : List AgentDecision)
    (step : Int) (llm : LLMSnapshot) :
    (trackTraderHistory s ds step llm).agentPerformance = s.agentPerformance := by
  simp only [trackTraderHistory]
  apply foldl_preserves
  intro b a
  rfl

@[simp] theorem updatePriceChart_simulationHistory (s : DashState) (price : ℚ) (step : Int) :
    (updatePriceChart s price step).simulationHistory = s.simulationHistory := by
  simp only [updatePriceChart]
  repeat' split
  all_goals rfl

@[simp] theorem updatePriceChart_actionCounts (s : DashState) (price : ℚ) (step : Int) :
    (updatePriceChart s price step).actionCounts = s.actionCounts := by
  simp only [updatePriceChart]
  repeat' split
  all_goals rfl

@[simp] theorem updatePriceChart_agentPerformance (s : DashState) (price : ℚ) (step : Int) :
    (updatePriceChart s price step).agentPerformance = s.agentPerformance := by
  simp only [updatePriceChart]
  repeat' split
  all_goals rfl

@[simp] theorem updatePriceChart_traderHistory (s : DashState) (price : ℚ) (step : Int) :
    (updatePriceChart s price step).traderHistory = s.traderHistory := by
  simp only [updatePriceChart]
  repeat' split
  all_goals rfl

@[simp] theorem updatePriceChart_isPaused (s : DashState) (price : ℚ) (step : Int) :
    (updatePriceChart s price step).isPaused = s.isPaused := by
  simp only [updatePriceChart]
  repeat' split
  all_goals rfl

@[simp] theorem onUpdate_isPaused (s : DashState) (d : StepSnapshot) :
    (onUpdate s d).isPaused = s.isPaused := by
  simp only [onUpdate]; split
  · rfl
  · simp

/-- A small well-formed LLM payload used by concrete instances. -/
def sampleLLM : LLMSnapshot :=
  { bullish := "b", bearish := "r", general_analysis := none
    proposal := { action := "buy", size := 1, rationale := "x" }
    risk_assessments := []
    manager_decision := { approved := true, final_action := "buy", final_size := 1, comment := "ok" }
    portfolio := { cash := 100, pos := 0, value := 100 } }

/-- A small well-formed baseline decision used by concrete instances. -/
def sampleDecision : AgentDecision :=
  { name := "Random", action := "buy", cash := 100, pos := 0, value := 100 }

/-- A small well-formed snapshot used by concrete instances. -/
def sampleSnap : StepSnapshot :=
  { step := 1, total_steps := 10, price := 100, news := "steady session"
    decisions := [sampleDecision], llm := sampleLLM }

/-- The initial raw-payload store. -/
def rawInit : RawState :=
  { history := [], priceLabels := [], priceData := [], agentPerformance := []
    actionCounts := { buy := 0, sell := 0, hold := 0 }, isPaused := false
    traderHistory := [] }

/-- C1: while the pause flag is set, delivering a snapshot to the `update`
handler leaves the whole store exactly as it was — the handler returns before
touching the history, window, tallies, ledgers or index, and stores the
snapshot nowhere (the state carries no buffer, so nothing can be replayed
after unpausing).  Stated for both the well-formed and the raw payload model,
which also reports that no error escapes. -/
theorem c1_paused_update_noop (s : DashState) (d : StepSnapshot)
    (r : RawState) (rd : RawSnapshot)
    (hs : s.isPaused = true) (hr : r.isPaused = true) :
    onUpdate s d = s ∧ onUpdateRaw r rd = (r, none) := by
  constructor
  · simp [onUpdate, hs]
  · simp [onUpdateRaw, hr]

/-- Concrete instance of `c1_paused_update_noop` at a paused store and a
well-formed snapshot. -/
theorem c1_paused_update_noop_witness :
    onUpdate { initState with isPaused := true } sampleSnap = { initState with isPaused := true } ∧
    onUpdateRaw { rawInit with isPaused := true }
        { step := some 1, total_steps := some 10, price := some 100
          news := some "steady session", decisions := some [sampleDecision]
          llm := some sampleLLM } =
      ({ rawInit with isPaused := true }, none) :=
  c1_paused_update_noop _ _ _ _ rfl rfl

/-- C6 (amended): the `startBtn` handler re-initialises the simulation
history, trader ledgers, agent performance index and action tally before the
start command is emitted, and leaves the pause flag untouched; the rolling
price window (the chart's `labels`/`data` arrays) is NOT cleared — it
persists from the previous run. -/
theorem c6_start_reset_amended (s : DashState) :
    (startReset s).simulationHistory = [] ∧
    (startReset s).traderHistory = [] ∧
    (startReset s).agentPerformance = [] ∧
    (startReset s).actionCounts = { buy := 0, sell := 0, hold := 0 } ∧
    (startReset s).isPaused = s.isPaused ∧
    (startReset s).priceLabels = s.priceLabels ∧
    (startReset s).priceData = s.priceData := by
  simp [startReset]

/-- C6 counterexample: after one accepted snapshot the price window holds one
point, and issuing the start command does not clear it — refuting the claim
that the rolling price window is re-initialised to empty on start. -/
theorem c6_window_survives_start_cex :
    (startReset (onUpdate initState sampleSnap)).priceData = [100] ∧
    (startReset (onUpdate initState sampleSnap)).priceLabels = ["Step 1"] ∧
    ([100] : List ℚ) ≠ [] := by
  refine ⟨by decide, by decide, by decide⟩

/-- C7: the sentiment rules of `updateNews` form an ordered decision list with
first match winning — the `"Very positive"`/`"rally"` rule beats the generic
`"positive"`/`"upward"` rule, which beats `"Very negative"`/`"crash"`, which
beats `"negative"`/`"declin"`, with the source's literal `"neutral"` as the
default — together with the three concrete classifications.  (Substring tests
are case-sensitive.) -/
theorem c7_classify_rule_order :
    (∀ news, (jsIncludes news "Very positive" || jsIncludes news "rally") = true →
      classify news = "Bullish") ∧
    (∀ news, (jsIncludes news "Very positive" || jsIncludes news "rally") = false →
      (jsIncludes news "positive" || jsIncludes news "upward") = true →
      classify news = "Positive") ∧
    (∀ news, (jsIncludes news "Very positive" || jsIncludes news "rally") = false →
      (jsIncludes news "positive" || jsIncludes news "upward") = false →
      (jsIncludes news "Very negative" || jsIncludes news "crash") = true →
      classify news = "Bearish") ∧
    (∀ news, (jsIncludes news "Very positive" || jsIncludes news "rally") = false →
      (jsIncludes news "positive" || jsIncludes news "upward") = false →
      (jsIncludes news "Very negative" || jsIncludes news "crash") = false →
      (jsIncludes news "negative" || jsIncludes news "declin") = true →
      classify news = "Negative") ∧
    (∀ news, (jsIncludes news "Very positive" || jsIncludes news "rally") = false →
      (jsIncludes news "positive" || jsIncludes news "upward") = false →
      (jsIncludes news "Very negative" || jsIncludes news "crash") = false →
      (jsIncludes news "negative" || jsIncludes news "declin") = false →
      classify news = "neutral") ∧
    classify "Market rally: prices very positive today" = "Bullish" ∧
    classify "Slight negative decline" = "Negative" ∧
    classify "steady session" = "neutral" := by
  refine ⟨?_, ?_, ?_, ?_, ?_, by decide, by decide, by decide⟩
  · intro news h1
    simp [classify, h1]
  · intro news h1 h2
    simp [classify, h1, h2]
  · intro news h1 h2 h3
    simp [classify, h1, h2, h3]
  · intro news h1 h2 h3 h4
    simp [classify, h1, h2, h3, h4]
  · intro news h1 h2 h3 h4
    simp [classify, h1, h2, h3, h4]

/-- Concrete instances of every rule of `c7_classify_rule_order`, hypotheses
discharged by evaluation. -/
theorem c7_classify_rule_order_witness :
    classify "rally on" = "Bullish" ∧ classify "upward drift" = "Positive" ∧
    classify "flash crash" = "Bearish" ∧ classify "mild declin" = "Negative" ∧
    classify "calm" = "neutral" :=
  ⟨c7_classify_rule_order.1 "rally on" (by decide),
   c7_classify_rule_order.2.1 "upward drift" (by decide) (by decide),
   c7_classify_rule_order.2.2.1 "flash crash" (by decide) (by decide) (by decide),
   c7_classify_rule_order.2.2.2.1 "mild declin" (by decide) (by decide) (by decide) (by decide),
   c7_classify_rule_order.2.2.2.2.1 "calm" (by decide) (by decide) (by decide) (by decide)⟩

/-- The last `n` entries of a list (the whole list when it is shorter). -/
def lastN {α : Type} (n : Nat) (l : List α) : List α :=
  l.drop (l.length - n)

theorem lastN_of_le {α : Type} {n : Nat} {l : List α} (h : l.length ≤ n) : lastN n l = l := by
  simp [lastN, Nat.sub_eq_zero_of_le h]

theorem lastN_length {α : Type} (n : Nat) (l : List α) :
    (lastN n l).length = min l.length n := by
  simp [lastN]
  omega

/-- Keeping only the last `n` entries before appending is invisible once only
the last `n` entries of the result are kept. -/
theorem lastN_append_absorb {α : Type} (n : Nat) (l r : List α) :
    lastN n (lastN n l ++ r) = lastN n (l ++ r) := by
  rcases Nat.le_total l.length n with h | h
  · rw [lastN_of_le h]
  · unfold lastN
    have h1 : (l.drop (l.length - n)).length = n := by
      rw [List.length_drop]; omega
    rw [List.length_append, List.length_append, h1]
    have e1 : n + r.length - n = r.length := by omega
    rw [e1, List.drop_append_eq_append_drop, List.drop_append_eq_append_drop,
      List.drop_drop, h1]
    have e2 : l.length - n + r.length = l.length + r.length - n := by omega
    have e3 : l.length + r.length - n - l.length = r.length - n := by omega
    rw [e2, e3]

/-- The window step of `updatePriceChart` keeps exactly the last 30 pushed
entries, provided the parallel arrays were in sync and within bound. -/
theorem onUpdate_window (s : DashState) (d : StepSnapshot) (hp : s.isPaused = false)
    (hlen : s.priceData.length = s.priceLabels.length) (hle : s.priceLabels.length ≤ 30) :
    (onUpdate s d).priceLabels = lastN 30 (s.priceLabels ++ ["Step " ++ toString d.step]) ∧
    (onUpdate s d).priceData = lastN 30 (s.priceData ++ [d.price]) ∧
    (onUpdate s d).priceData.length = (onUpdate s d).priceLabels.length ∧
    (onUpdate s d).priceLabels.length ≤ 30 := by
  have hL : (onUpdate s d).priceLabels =
      (updatePriceChart { s with simulationHistory := s.simulationHistory ++ [d] }
        d.price d.step).priceLabels := by
    simp [onUpdate, hp]
  have hD : (onUpdate s d).priceData =
      (updatePriceChart { s with simulationHistory := s.simulationHistory ++ [d] }
        d.price d.step).priceData := by
    simp [onUpdate, hp]
  rw [hL, hD]
  unfold updatePriceChart
  simp only [hp, Bool.false_eq_true, if_false]
  split
  · rename_i hgt
    simp only [List.length_append, List.length_cons, List.length_nil] at hgt
    have hL30 : s.priceLabels.length = 30 := by omega
    have hD30 : s.priceData.length = 30 := by omega
    have el : lastN 30 (s.priceLabels ++ ["Step " ++ toString d.step]) =
        (s.priceLabels ++ ["Step " ++ toString d.step]).drop 1 := by
      unfold lastN
      congr 1
      simp [hL30]
    have ed : lastN 30 (s.priceData ++ [d.price]) = (s.priceData ++ [d.price]).drop 1 := by
      unfold lastN
      congr 1
      simp [hD30]
    refine ⟨el.symm, ed.symm, ?_, ?_⟩
    · simp [hL30, hD30]
    · simp [hL30]
  · rename_i hngt
    simp only [List.length_append, List.length_cons, List.length_nil] at hngt
    refine ⟨?_, ?_, ?_, ?_⟩
    · rw [lastN_of_le (by simp; omega)]
    · rw [lastN_of_le (by simp; omega)]
    · simp [hlen]
    · simp
      omega

/-- Folding accepted snapshots from a synced in-bound window leaves exactly
the last 30 pushed `(label, price)` points. -/
theorem window_fold (snaps : List StepSnapshot) : ∀ (s : DashState),
    s.isPaused = false → s.priceData.length = s.priceLabels.length →
    s.priceLabels.length ≤ 30 →
    (snaps.foldl onUpdate s).priceLabels =
      lastN 30 (s.priceLabels ++ snaps.map (fun d => "Step " ++ toString d.step)) ∧
    (snaps.foldl onUpdate s).priceData =
      lastN 30 (s.priceData ++ snaps.map (fun d => d.price)) := by
  induction snaps with
  | nil =>
    intro s hp hlen hle
    simp only [List.foldl_nil, List.map_nil, List.append_nil]
    exact ⟨(lastN_of_le hle).symm, (lastN_of_le (by omega)).symm⟩
  | cons d t ih =>
    intro s hp hlen hle
    obtain ⟨h1, h2, h3, h4⟩ := onUpdate_window s d hp hlen hle
    have hp' : (onUpdate s d).isPaused = false := by rw [onUpdate_isPaused, hp]
    obtain ⟨ih1, ih2⟩ := ih (onUpdate s d) hp' h3 h4
    constructor
    · rw [List.foldl_cons, ih1, h1, lastN_append_absorb]
      simp
    · rw [List.foldl_cons, ih2, h2, lastN_append_absorb]
      simp

/-- C3: processing any sequence of `N` snapshots from the fresh dashboard
(never paused, hence all accepted) leaves the rolling price window holding
exactly `min N 30` points: the labels and prices of the 30 most recently
accepted snapshots, in arrival order, the oldest evicted first. -/
theorem c3_rolling_window (snaps : List StepSnapshot) :
    (snaps.foldl onUpdate initState).priceLabels =
      (snaps.map (fun d => "Step " ++ toString d.step)).drop (snaps.length - 30) ∧
    (snaps.foldl onUpdate initState).priceData =
      (snaps.map (fun d => d.price)).drop (snaps.length - 30) ∧
    (snaps.foldl onUpdate initState).priceLabels.length = min snaps.length 30 ∧
    (snaps.foldl onUpdate initState).priceData.length = min snaps.length 30 := by
  obtain ⟨h1, h2⟩ := window_fold snaps initState rfl rfl (by simp [initState])
  refine ⟨?_, ?_, ?_, ?_⟩
  · rw [h1]
    simp [initState, lastN]
  · rw [h2]
    simp [initState, lastN]
  · rw [h1, lastN_length]
    simp [initState]
  · rw [h2, lastN_length]
    simp [initState]

/-- The action values the tally recognises. -/
def recognizedB (a : String) : Bool :=
  a = "buy" || a = "sell" || a = "hold"

/-- The sum of the three tally counters. -/
def tallySum (t : ActionTally) : Nat :=
  t.buy + t.sell + t.hold

theorem updateAgentsStep_tallySum (s : DashState) (a : AgentDecision) :
    tallySum (updateAgentsStep s a).actionCounts =
      tallySum s.actionCounts + (if recognizedB a.action then 1 else 0) := by
  unfold updateAgentsStep recognizedB tallySum
  repeat' split
  all_goals simp_all
  all_goals omega

theorem updateAgents_tallySum (ds : List AgentDecision) : ∀ (s : DashState),
    tallySum (updateAgents s ds).actionCounts =
      tallySum s.actionCounts + ds.countP (fun a => recognizedB a.action) := by
  induction ds with
  | nil => intro s; simp [updateAgents]
  | cons a t ih =>
    intro s
    have step : updateAgents s (a :: t) = updateAgents (updateAgentsStep s a) t := rfl
    rw [step, ih, updateAgentsStep_tallySum, List.countP_cons]
    split <;> omega

/-- Length of `traderHistory[k]`, zero when the key is absent. -/
def ledgerLenOf (m : List (String × List LedgerRecord)) (k : String) : Nat :=
  ((assocGet? m k).map List.length).getD 0

theorem assocGet?_mapPush (k : String) (r : LedgerRecord) (k' : String) :
    ∀ (m : List (String × List LedgerRecord)),
    assocGet? (m.map (fun p => if p.1 = k then (p.1, p.2 ++ [r]) else p)) k' =
      (assocGet? m k').map (fun l => if k' = k then l ++ [r] else l)
  | [] => rfl
  | (a, l) :: t => by
    by_cases hk' : a = k'
    · subst hk'
      by_cases hk : a = k
      · subst hk
        simp [assocGet?, List.find?_cons_of_pos]
      · simp [assocGet?, List.find?_cons_of_pos, hk]
    · by_cases hk : a = k
      · subst hk
        have := assocGet?_mapPush a r k' t
        simp only [assocGet?] at this ⊢
        simp only [List.map_cons, if_pos rfl]
        rw [List.find?_cons_of_neg _ (by simp [hk']), List.find?_cons_of_neg _ (by simp [hk'])]
        exact this
      · have := assocGet?_mapPush k r k' t
        simp only [assocGet?] at this ⊢
        simp only [List.map_cons, if_neg hk]
        rw [List.find?_cons_of_neg _ (by simp [hk']), List.find?_cons_of_neg _ (by simp [hk'])]
        exact this

theorem find?_eq_none_of_any_false {α : Type} (p : α → Bool) (l : List α)
    (h : l.any p = false) : l.find? p = none := by
  rw [List.find?_eq_none]
  intro x hx
  simp [List.any_eq_false] at h
  simp [h x hx]

/-- One `ledgerPush` grows exactly the pushed key's ledger by one record. -/
theorem ledgerLenOf_push (m : List (String × List LedgerRecord)) (k : String)
    (r : LedgerRecord) (k' : String) :
    ledgerLenOf (ledgerPush m k r) k' = ledgerLenOf m k' + (if k' = k then 1 else 0) := by
  unfold ledgerPush
  split
  · rename_i hany
    unfold ledgerLenOf
    rw [assocGet?_mapPush]
    by_cases hk : k' = k
    · subst hk
      obtain ⟨p, hp, hpk⟩ := List.any_eq_true.mp hany
      have hsome : (List.find? (fun p => p.1 = k') m).isSome :=
        List.find?_isSome.mpr ⟨p, hp, hpk⟩
      rcases hfind : List.find? (fun p => p.1 = k') m with _ | q
      · rw [hfind] at hsome
        simp at hsome
      · simp [assocGet?, hfind]
    · rcases hfind : assocGet? m k' with _ | l
      · simp [hk]
      · simp [hk]
  · rename_i hany
    simp only [Bool.not_eq_true] at hany
    unfold ledgerLenOf assocGet?
    rw [List.find?_append]
    by_cases hk : k' = k
    · subst hk
      rw [find?_eq_none_of_any_false _ _ (by simpa using hany)]
      simp
    · have hsingle : List.find? (fun p => p.1 = k') [(k, [r])] = none := by
        simp [Ne.symm hk]
      rw [hsingle]
      simp [hk]

theorem trackTraderHistory_ledgerLen (ds : List AgentDecision) (step : Int)
    (llm : LLMSnapshot) (name : String) : ∀ (s : DashState),
    ledgerLenOf (trackTraderHistory s ds step llm).traderHistory name =
      ledgerLenOf s.traderHistory name + ds.countP (fun a => a.name = name) +
        (if name = "LLM Fund" then 1 else 0) := by
  induction ds with
  | nil =>
    intro s
    simp only [trackTraderHistory, List.foldl_nil, List.countP_nil, Nat.add_zero]
    exact ledgerLenOf_push ..
  | cons a t ih =>
    intro s
    have step1 : trackTraderHistory s (a :: t) step llm =
        trackTraderHistory
          { s with traderHistory := ledgerPush s.traderHistory a.name (decisionRecord step a) }
          t step llm := rfl
    rw [step1, ih, List.countP_cons]
    simp only [DashState.traderHistory]
    rw [ledgerLenOf_push]
    by_cases h : a.name = name
    · simp only [h, if_pos rfl]
      simp
      omega
    · have h' : ¬ name = a.name := fun hc => h hc.symm
      simp [h, h']

theorem onUpdate_ledgerLen (s : DashState) (d : StepSnapshot) (name : String)
    (hp : s.isPaused = false) :
    ledgerLenOf (onUpdate s d).traderHistory name =
      ledgerLenOf s.traderHistory name + d.decisions.countP (fun a => a.name = name) +
        (if name = "LLM Fund" then 1 else 0) := by
  have h : (onUpdate s d).traderHistory =
      (trackTraderHistory
        (updateLLMPipeline
          (updateAgents
            (updatePriceChart { s with simulationHistory := s.simulationHistory ++ [d] }
              d.price d.step)
            d.decisions)
          d.llm)
        d.decisions d.step d.llm).traderHistory := by
    simp [onUpdate, hp]
  rw [h, trackTraderHistory_ledgerLen]
  simp

theorem onUpdate_tallySum (s : DashState) (d : StepSnapshot) (hp : s.isPaused = false) :
    tallySum (onUpdate s d).actionCounts =
      tallySum s.actionCounts + d.decisions.countP (fun a => recognizedB a.action) := by
  have h : (onUpdate s d).actionCounts =
      (updateAgents
        (updatePriceChart { s with simulationHistory := s.simulationHistory ++ [d] }
          d.price d.step)
        d.decisions).actionCounts := by
    simp [onUpdate, hp]
  rw [h, updateAgents_tallySum]
  simp

theorem fold_tallySum (snaps : List StepSnapshot) : ∀ (s : DashState), s.isPaused = false →
    tallySum (snaps.foldl onUpdate s).actionCounts =
      tallySum s.actionCounts +
        (snaps.map (fun d => d.decisions.countP (fun a => recognizedB a.action))).sum := by
  induction snaps with
  | nil => intro s _; simp
  | cons d t ih =>
    intro s hp
    have hp' : (onUpdate s d).isPaused = false := by rw [onUpdate_isPaused, hp]
    rw [List.foldl_cons, ih (onUpdate s d) hp', onUpdate_tallySum s d hp]
    simp
    omega

theorem fold_ledgerLen (snaps : List StepSnapshot) (name : String) : ∀ (s : DashState),
    s.isPaused = false →
    ledgerLenOf (snaps.foldl onUpdate s).traderHistory name =
      ledgerLenOf s.traderHistory name +
        (snaps.map (fun d => d.decisions.countP (fun a => a.name = name))).sum +
        (if name = "LLM Fund" then snaps.length else 0) := by
  induction snaps with
  | nil => intro s _; simp
  | cons d t ih =>
    intro s hp
    have hp' : (onUpdate s d).isPaused = false := by rw [onUpdate_isPaused, hp]
    rw [List.foldl_cons, ih (onUpdate s d) hp', onUpdate_ledgerLen s d name hp]
    simp only [List.map_cons, List.sum_cons, List.length_cons]
    split <;> omega

/-- C4: over any run of accepted snapshots from the fresh dashboard, the sum
of the three tally counters equals the number of processed decisions whose
action is `buy`, `sell` or `hold`; every trader's ledger holds one record per
decision naming that trader — regardless of action — plus one per snapshot
for `"LLM Fund"`; and a decision with an unrecognised action leaves all three
counters unchanged (no error is raised) while its ledger record is still
appended. -/
theorem c4_tally_sum_and_silent_skip (snaps : List StepSnapshot) :
    tallySum (snaps.foldl onUpdate initState).actionCounts =
      (snaps.map (fun d => d.decisions.countP (fun a => recognizedB a.action))).sum ∧
    (∀ name, ledgerLenOf (snaps.foldl onUpdate initState).traderHistory name =
      (snaps.map (fun d => d.decisions.countP (fun a => a.name = name))).sum +
        (if name = "LLM Fund" then snaps.length else 0)) ∧
    (∀ (s : DashState) (a : AgentDecision), recognizedB a.action = false →
      (updateAgentsStep s a).actionCounts = s.actionCounts ∧
      (updateAgentsStep s a).traderHistory = s.traderHistory) := by
  refine ⟨?_, ?_, ?_⟩
  · rw [fold_tallySum snaps initState rfl]
    simp [initState, tallySum]
  · intro name
    rw [fold_ledgerLen snaps name initState rfl]
    simp [initState, ledgerLenOf, assocGet?]
  · intro s a hunrec
    simp only [recognizedB, Bool.or_eq_false_iff, decide_eq_false_iff_not] at hunrec
    obtain ⟨⟨h1, h2⟩, h3⟩ := hunrec
    constructor
    · simp [updateAgentsStep, h1, h2, h3]
    · simp [updateAgentsStep, h1, h2, h3]

/-- Concrete instance of the silent-skip part of
`c4_tally_sum_and_silent_skip`: an action of `"short"` changes no counter. -/
theorem c4_tally_sum_and_silent_skip_witness :
    (updateAgentsStep initState { sampleDecision with action := "short" }).actionCounts =
      initState.actionCounts ∧
    (updateAgentsStep initState { sampleDecision with action := "short" }).traderHistory =
      initState.traderHistory :=
  (c4_tally_sum_and_silent_skip []).2.2 initState { sampleDecision with action := "short" }
    (by decide)

/-- A raw snapshot that is well-formed except for a missing `news` field. -/
def newslessSnap : RawSnapshot :=
  { step := some 1, total_steps := some 10, price := some 100, news := none
    decisions := some [sampleDecision], llm := some sampleLLM }

/-- C2 counterexample: delivering a snapshot whose required `news` field is
missing to the un-paused handler is not atomically rejected — the snapshot is
appended to the simulation history and the price window BEFORE
`news.includes` throws a `TypeError` (there is no `DecodeError` anywhere), so
the prior store state is not preserved. -/
theorem c2_partial_mutation_cex :
    (onUpdateRaw rawInit newslessSnap).1.history.length = 1 ∧
    rawInit.history.length = 0 ∧
    (onUpdateRaw rawInit newslessSnap).1.priceData.length = 1 ∧
    rawInit.priceData.length = 0 ∧
    (onUpdateRaw rawInit newslessSnap).2 = some JsError.typeError := by
  refine ⟨by decide, by decide, by decide, by decide, by decide⟩

/-- C2 (amended): the handler performs no validation at all.  On any
non-paused store, a snapshot missing its `news` field has already been pushed
into `simulationHistory` and onto the price chart's arrays when the handler
dies with a `TypeError` — a partial mutation; only the tally, ledgers and
performance index are still untouched at that point, and no `DecodeError`
value exists in the program. -/
theorem c2_no_validation_amended (s : RawState) (d : RawSnapshot)
    (hp : s.isPaused = false) (hn : d.news = none) :
    (onUpdateRaw s d).2 = some JsError.typeError ∧
    (onUpdateRaw s d).1.history = s.history ++ [d] ∧
    (onUpdateRaw s d).1.priceLabels =
      (updatePriceChartRaw { s with history := s.history ++ [d] } d.price d.step).priceLabels ∧
    (onUpdateRaw s d).1.priceData =
      (updatePriceChartRaw { s with history := s.history ++ [d] } d.price d.step).priceData ∧
    (onUpdateRaw s d).1.actionCounts = s.actionCounts ∧
    (onUpdateRaw s d).1.traderHistory = s.traderHistory ∧
    (onUpdateRaw s d).1.agentPerformance = s.agentPerformance := by
  have hfix : onUpdateRaw s d =
      (updatePriceChartRaw { s with history := s.history ++ [d] } d.price d.step,
        some JsError.typeError) := by
    simp [onUpdateRaw, hp, hn]
  rw [hfix]
  refine ⟨rfl, ?_, rfl, rfl, ?_, ?_, ?_⟩
  all_goals
    unfold updatePriceChartRaw
    simp only [hp, Bool.false_eq_true, if_false]
    split
  all_goals rfl

/-- Concrete instance of `c2_no_validation_amended` at the fresh store and the
`news`-less snapshot. -/
theorem c2_no_validation_amended_witness :
    (onUpdateRaw rawInit newslessSnap).2 = some JsError.typeError ∧
    (onUpdateRaw rawInit newslessSnap).1.history = rawInit.history ++ [newslessSnap] ∧
    (onUpdateRaw rawInit newslessSnap).1.priceLabels =
      (updatePriceChartRaw { rawInit with history := rawInit.history ++ [newslessSnap] }
        newslessSnap.price newslessSnap.step).priceLabels ∧
    (onUpdateRaw rawInit newslessSnap).1.priceData =
      (updatePriceChartRaw { rawInit with history := rawInit.history ++ [newslessSnap] }
        newslessSnap.price newslessSnap.step).priceData ∧
    (onUpdateRaw rawInit newslessSnap).1.actionCounts = rawInit.actionCounts ∧
    (onUpdateRaw rawInit newslessSnap).1.traderHistory = rawInit.traderHistory ∧
    (onUpdateRaw rawInit newslessSnap).1.agentPerformance = rawInit.agentPerformance :=
  c2_no_validation_amended rawInit newslessSnap rfl rfl

/-- A ledger record carrying just a portfolio value (the other fields are
irrelevant to the summary math). -/
def valRec (v : ℚ) : LedgerRecord :=
  { step := 1, action := "hold", cash := 0, position := 0, value := v }

/-- C5 counterexample: a ledger starting at value `0` does NOT fall back to a
`0%` total return — `((50 - 0) / 0) * 100` evaluates to `Infinity`, which is
rendered as `"Infinity"`, not `"0.00"`: the zero-start fallback claimed for
`totalReturnPct` is absent from `renderTraderHistory`. -/
theorem c5_zero_start_infinity_cex :
    totalReturnOf [valRec 0, valRec 50] = JsNum.posInf ∧
    JsNum.posInf ≠ JsNum.num 0 ∧
    toFixed2 (totalReturnOf [valRec 0, valRec 50]) = "Infinity" := by
  have h : totalReturnOf [valRec 0, valRec 50] = JsNum.posInf := by
    norm_num [totalReturnOf, valRec, List.getLastD, jsDiv, jsMul]
  exact ⟨h, by decide, by rw [h]; rfl⟩

/-- C5 (amended): `totalReturnPct` is
`((endValue - startValue) / startValue) * 100` over the ledger's first and
last record whenever `startValue ≠ 0` (so the ledger `[100, 150, 90]` yields
`-10.00`); when `startValue = 0` there is no fallback — the result is the
non-finite `Infinity` / `-Infinity` / `NaN`, never a finite percentage. -/
theorem c5_total_return_amended (l : List LedgerRecord) (hne : l ≠ []) :
    ((l.head hne).value ≠ 0 →
      totalReturnOf l =
        JsNum.num (((l.getLast hne).value - (l.head hne).value) / (l.head hne).value * 100)) ∧
    ((l.head hne).value = 0 → ∀ q : ℚ, totalReturnOf l ≠ JsNum.num q) := by
  rcases l with _ | ⟨h, t⟩
  · exact absurd rfl hne
  · have hlast : List.getLastD (h :: t) h = (h :: t).getLast hne := by
      rw [List.getLastD_eq_getLast?, List.getLast?_eq_getLast (h :: t) hne]
      rfl
    constructor
    · intro hsv
      simp only [List.head_cons] at hsv
      simp only [totalReturnOf, hlast, List.head_cons, jsDiv, if_neg hsv, jsMul]
    · intro hsv q
      simp only [List.head_cons] at hsv
      simp only [totalReturnOf, hlast, List.head_cons, hsv, sub_zero]
      by_cases h0 : ((h :: t).getLast hne).value = 0
      · norm_num [jsDiv, h0, jsMul]
        exact fun hcon => nomatch hcon
      · by_cases hpos : 0 < ((h :: t).getLast hne).value
        · norm_num [jsDiv, h0, hpos, jsMul]
          exact fun hcon => nomatch hcon
        · norm_num [jsDiv, h0, hpos, jsMul]
          exact fun hcon => nomatch hcon

/-- Concrete instance of `c5_total_return_amended`: the ledger
`[100, 150, 90]` yields the finite total return `-10`, rendered `"-10.00"`. -/
theorem c5_total_return_amended_witness :
    totalReturnOf [valRec 100, valRec 150, valRec 90] = JsNum.num (-10) ∧
    toFixed2 (totalReturnOf [valRec 100, valRec 150, valRec 90]) = "-10.00" := by
  have h := (c5_total_return_amended [valRec 100, valRec 150, valRec 90]
    (by decide)).1 (by norm_num [valRec])
  have hv : totalReturnOf [valRec 100, valRec 150, valRec 90] = JsNum.num (-10) := by
    rw [h]
    norm_num [valRec, List.getLast]
  refine ⟨hv, ?_⟩
  rw [hv]
  norm_num [toFixed2]
  decide

/-- A copy of `sampleSnap` at a given step, with identifying news text. -/
def sampleSnapN (n : Int) : StepSnapshot :=
  { sampleSnap with step := n, news := "news " ++ toString n }

/-- C8: history filtering per mode — `"all"` keeps every record; `"step"`
keeps exactly the record whose 1-based position equals the search term parsed
as an integer (a non-numeric term parses to `NaN`, matching no position, so
nothing is kept and no error is raised); `"news"` keeps exactly the records
whose news text contains the term as a case-sensitive substring.  Includes
the concrete 5-step instance for term `"3"`. -/
theorem c8_history_filtering (h : List StepSnapshot) (t : String) :
    renderHistory h "all" t = h.enum ∧
    (∀ i r, (i, r) ∈ renderHistory h "step" t ↔
      h.get? i = some r ∧ jsParseInt t = some ((i : Int) + 1)) ∧
    (jsParseInt t = none → renderHistory h "step" t = []) ∧
    (∀ i r, (i, r) ∈ renderHistory h "news" t ↔
      h.get? i = some r ∧ jsIncludes r.news t = true) ∧
    renderHistory [sampleSnapN 1, sampleSnapN 2, sampleSnapN 3, sampleSnapN 4, sampleSnapN 5]
        "step" "3" = [(2, sampleSnapN 3)] := by
  refine ⟨?_, ?_, ?_, ?_, by decide⟩
  · simp [renderHistory, keepInHistory]
  · intro i r
    rw [renderHistory, List.mem_filter, List.mk_mem_enum_iff_get?, keepInHistory]
    simp only [List.get?_eq_getElem?]
    constructor
    · rintro ⟨hget, hkeep⟩
      refine ⟨hget, ?_⟩
      by_contra hne
      simp [hne] at hkeep
    · rintro ⟨hget, hpt⟩
      refine ⟨hget, ?_⟩
      simp [hpt]
  · intro hnone
    rw [renderHistory, List.filter_eq_nil]
    intro p _
    simp [keepInHistory, hnone]
  · intro i r
    rw [renderHistory, List.mem_filter, List.mk_mem_enum_iff_get?, keepInHistory]
    simp only [List.get?_eq_getElem?]
    constructor
    · rintro ⟨hget, hkeep⟩
      refine ⟨hget, ?_⟩
      by_contra hne
      simp [hne] at hkeep
    · rintro ⟨hget, hinc⟩
      refine ⟨hget, ?_⟩
      simp [hinc]

/-- The inbound events that mutate the store, in the order the dashboard's
single consumer handles them. -/
inductive DashEvent where
  | start
  | update (d : StepSnapshot)
  | finished (h : Option (List StepSnapshot))
  | togglePause
deriving DecidableEq

/-- Dispatch of one event to its handler (`togglePause` is the pause button's
`isPaused = !isPaused`). -/
def applyEvent (s : DashState) : DashEvent → DashState
  | DashEvent.start => startReset s
  | DashEvent.update d => onUpdate s d
  | DashEvent.finished h => onSimulationFinished s h
  | DashEvent.togglePause => { s with isPaused := !s.isPaused }

/-- The store after a whole session of events from page load. -/
def runEvents (evs : List DashEvent) : DashState :=
  evs.foldl applyEvent initState

/-- Every ledger in the map is non-empty. -/
def ledgersNonempty (m : List (String × List LedgerRecord)) : Prop :=
  ∀ p ∈ m, p.2 ≠ []

theorem ledgerPush_nonempty (m : List (String × List LedgerRecord)) (k : String)
    (r : LedgerRecord) (hm : ledgersNonempty m) : ledgersNonempty (ledgerPush m k r) := by
  unfold ledgerPush
  split
  · intro p hp
    obtain ⟨q, hq, hfq⟩ := List.mem_map.mp hp
    by_cases hk : q.1 = k
    · rw [if_pos hk] at hfq
      rw [← hfq]
      simp
    · rw [if_neg hk] at hfq
      rw [← hfq]
      exact hm q hq
  · intro p hp
    rcases List.mem_append.mp hp with hin | hin
    · exact hm p hin
    · rcases List.mem_singleton.mp hin with rfl
      simp

theorem trackTraderHistory_nonempty (ds : List AgentDecision) (step : Int)
    (llm : LLMSnapshot) : ∀ (s : DashState), ledgersNonempty s.traderHistory →
    ledgersNonempty (trackTraderHistory s ds step llm).traderHistory := by
  induction ds with
  | nil =>
    intro s hs
    exact ledgerPush_nonempty _ _ _ hs
  | cons a t ih =>
    intro s hs
    exact ih { s with traderHistory := ledgerPush s.traderHistory a.name (decisionRecord step a) }
      (ledgerPush_nonempty _ _ _ hs)

theorem applyEvent_nonempty (s : DashState) (e : DashEvent)
    (hs : ledgersNonempty s.traderHistory) :
    ledgersNonempty (applyEvent s e).traderHistory := by
  cases e with
  | start => intro p hp; cases hp
  | update d =>
    simp only [applyEvent, onUpdate]
    split
    · exact hs
    · apply trackTraderHistory_nonempty
      simpa using hs
  | finished h =>
    cases h with
    | none => exact hs
    | some l => exact hs
  | togglePause => exact hs

/-- C10: after any session of events from page load, every trader name that
is a key of `traderHistory` maps to a non-empty ledger — a key is only ever
created together with an immediate first `push` — so the summary's first
(`startValue`) and last (`endValue`) records are defined for every listed
trader. -/
theorem c10_ledger_keys_nonempty (evs : List DashEvent) (name : String)
    (l : List LedgerRecord) (hmem : (name, l) ∈ (runEvents evs).traderHistory) :
    l ≠ [] ∧ l.head?.isSome ∧ l.getLast?.isSome := by
  have inv : ∀ (t : List DashEvent) (s : DashState), ledgersNonempty s.traderHistory →
      ledgersNonempty (t.foldl applyEvent s).traderHistory := by
    intro t
    induction t with
    | nil => intro s hs; exact hs
    | cons e t' ih => intro s hs; exact ih (applyEvent s e) (applyEvent_nonempty s e hs)
  have hne : l ≠ [] := inv evs initState (fun p hp => by cases hp) (name, l) hmem
  refine ⟨hne, ?_, ?_⟩
  · rcases l with _ | ⟨a, t⟩
    · exact absurd rfl hne
    · simp
  · rcases l with _ | ⟨a, t⟩
    · exact absurd rfl hne
    · simp [List.getLast?_eq_getLast]

/-- Concrete instance of `c10_ledger_keys_nonempty`: after one accepted
snapshot the `"LLM Fund"` ledger exists and is the non-empty singleton. -/
theorem c10_ledger_keys_nonempty_witness :
    ([llmRecord 1 sampleLLM] : List LedgerRecord) ≠ [] ∧
    ([llmRecord 1 sampleLLM] : List LedgerRecord).head?.isSome ∧
    ([llmRecord 1 sampleLLM] : List LedgerRecord).getLast?.isSome :=
  c10_ledger_keys_nonempty [DashEvent.update sampleSnap] "LLM Fund" [llmRecord 1 sampleLLM]
    (by decide)

/-- Concrete instance of `c8_history_filtering`: a non-numeric search term in
`"step"` mode yields no matches (and no error) on a non-empty history. -/
theorem c8_history_filtering_witness :
    renderHistory [sampleSnapN 1, sampleSnapN 2] "step" "abc" = [] :=
  (c8_history_filtering [sampleSnapN 1, sampleSnapN 2] "abc").2.2.1 (by decide)

/-- JSON insignificant whitespace (also the only whitespace the pretty
printer emits: spaces and newlines). -/
def isJsonWs (c : Char) : Bool :=
  c = ' ' || c = '\n' || c = '\t' || c = '\r'

/-- Skip insignificant whitespace. -/
def skipWs (cs : List Char) : List Char :=
  cs.dropWhile isJsonWs

/-- Lower-case hexadecimal digit character for a value below 16. -/
def hexDigitCh (n : Nat) : Char :=
  if n < 10 then Char.ofNat (48 + n) else Char.ofNat (87 + n)

/-- `QuoteJSONString` escaping of one character (ECMA-262: quote and
backslash get a backslash, the five named control characters their two-char
escapes, any other code point below U+0020 a `\u00XX` escape, everything else
is copied verbatim). -/
def escChar (c : Char) : List Char :=
  if c = '"' then ['\\', '"']
  else if c = '\\' then ['\\', '\\']
  else if c = '\x08' then ['\\', 'b']
  else if c = '\x09' then ['\\', 't']
  else if c = '\x0a' then ['\\', 'n']
  else if c = '\x0c' then ['\\', 'f']
  else if c = '\x0d' then ['\\', 'r']
  else if c.toNat < 32 then ['\\', 'u', '0', '0', hexDigitCh (c.toNat / 16), hexDigitCh (c.toNat % 16)]
  else [c]

/-- Escape a whole character sequence. -/
def escList (cs : List Char) : List Char :=
  (cs.map escChar).join

/-- A quoted JSON string literal. -/
def renderStr (s : String) : List Char :=
  '"' :: escList s.data ++ ['"']

/-- Body of a JSON string literal, after the opening quote: collect
characters and unescape until the closing quote. -/
def parseStrBody : List Char → Option (List Char × List Char)
  | [] => none
  | '"' :: rest => some ([], rest)
  | '\\' :: d :: rest =>
    match d with
    | '"' => (parseStrBody rest).map (fun (cs, r) => ('"' :: cs, r))
    | '\\' => (parseStrBody rest).map (fun (cs, r) => ('\\' :: cs, r))
    | '/' => (parseStrBody rest).map (fun (cs, r) => ('/' :: cs, r))
    | 'b' => (parseStrBody rest).map (fun (cs, r) => ('\x08' :: cs, r))
    | 't' => (parseStrBody rest).map (fun (cs, r) => ('\x09' :: cs, r))
    | 'n' => (parseStrBody rest).map (fun (cs, r) => ('\x0a' :: cs, r))
    | 'f' => (parseStrBody rest).map (fun (cs, r) => ('\x0c' :: cs, r))
    | 'r' => (parseStrBody rest).map (fun (cs, r) => ('\x0d' :: cs, r))
    | 'u' =>
      match rest with
      | h1 :: h2 :: h3 :: h4 :: rest2 =>
        match hexVal? h1, hexVal? h2, hexVal? h3, hexVal? h4 with
        | some v1, some v2, some v3, some v4 =>
          let n := ((v1 * 16 + v2) * 16 + v3) * 16 + v4
          if h : n.isValidChar then
            (parseStrBody rest2).map (fun (cs, r) => (Char.ofNatAux n h :: cs, r))
          else none
        | _, _, _, _ => none
      | _ => none
    | _ => none
  | c :: rest =>
    if c.toNat < 32 then none
    else (parseStrBody rest).map (fun (cs, r) => (c :: cs, r))

theorem hexVal?_hexDigitCh : ∀ n, n < 16 → hexVal? (hexDigitCh n) = some n := by decide

/-- Unescaping one escaped character recovers it and continues. -/
theorem parseStrBody_escChar (c : Char) (rest : List Char) :
    parseStrBody (escChar c ++ rest) =
      (parseStrBody rest).map (fun p => (c :: p.1, p.2)) := by
  by_cases h1 : c = '"'
  · subst h1; rfl
  by_cases h2 : c = '\\'
  · subst h2; rfl
  by_cases h3 : c = '\x08'
  · subst h3; rfl
  by_cases h4 : c = '\x09'
  · subst h4; rfl
  by_cases h5 : c = '\x0a'
  · subst h5; rfl
  by_cases h6 : c = '\x0c'
  · subst h6; rfl
  by_cases h7 : c = '\x0d'
  · subst h7; rfl
  by_cases hlt : c.toNat < 32
  · have he : escChar c =
        ['\\', 'u', '0', '0', hexDigitCh (c.toNat / 16), hexDigitCh (c.toNat % 16)] := by
      unfold escChar
      rw [if_neg h1, if_neg h2, if_neg h3, if_neg h4, if_neg h5, if_neg h6, if_neg h7,
        if_pos hlt]
    rw [he]
    have hhi : hexVal? (hexDigitCh (c.toNat / 16)) = some (c.toNat / 16) :=
      hexVal?_hexDigitCh _ (by omega)
    have hlo : hexVal? (hexDigitCh (c.toNat % 16)) = some (c.toNat % 16) :=
      hexVal?_hexDigitCh _ (by omega)
    have h0 : hexVal? '0' = some 0 := by decide
    simp only [List.cons_append, List.nil_append, parseStrBody, h0, hhi, hlo]
    have hn : ((0 * 16 + 0) * 16 + c.toNat / 16) * 16 + c.toNat % 16 = c.toNat := by omega
    rw [hn]
    have hvalid : c.toNat.isValidChar := by
      left
      omega
    rw [dif_pos hvalid]
    have hc : Char.ofNatAux c.toNat hvalid = c := by
      have : Char.ofNatAux c.toNat hvalid = Char.ofNat c.toNat := by
        unfold Char.ofNat
        rw [dif_pos hvalid]
      rw [this, Char.ofNat_toNat]
    rw [hc]
    rfl
  · have he : escChar c = [c] := by
      unfold escChar
      rw [if_neg h1, if_neg h2, if_neg h3, if_neg h4, if_neg h5, if_neg h6, if_neg h7,
        if_neg hlt]
    rw [he]
    show parseStrBody (c :: rest) = _
    rw [parseStrBody.eq_def]
    split
    · rename_i heq
      exact absurd heq (by simp)
    · rename_i heq
      injection heq with hh _
      exact absurd hh h1
    · rename_i heq
      injection heq with hh _
      exact absurd hh h2
    · rename_i a r heq
      injection heq with hh ht
      subst hh ht
      rw [if_neg hlt]

/-- Parsing an escaped string body up to its closing quote recovers the
original characters. -/
theorem parseStrBody_escList (cs rest : List Char) :
    parseStrBody (escList cs ++ '"' :: rest) = some (cs, rest) := by
  induction cs with
  | nil => rfl
  | cons c t ih =>
    have he : escList (c :: t) = escChar c ++ escList t := by
      simp [escList]
    rw [he, List.append_assoc, parseStrBody_escChar, ih]
    rfl

/-- Little-endian value of a digit list. -/
def littleVal : List Nat → Nat
  | [] => 0
  | d :: ds => d + 10 * littleVal ds

theorem digitsToNat_reverse (l : List Nat) : digitsToNat 10 l.reverse = littleVal l := by
  induction l with
  | nil => rfl
  | cons d ds ih =>
    rw [List.reverse_cons]
    unfold littleVal
    unfold digitsToNat at *
    rw [List.foldl_append, ih]
    simp
    ring

theorem littleVal_natDigitsRev (fuel : Nat) : ∀ n, n < 10 ^ fuel →
    littleVal (natDigitsRev fuel n) = n := by
  induction fuel with
  | zero =>
    intro n hn
    interval_cases n
    rfl
  | succ f ih =>
    intro n hn
    unfold natDigitsRev
    by_cases h0 : n = 0
    · simp [h0, littleVal]
    · rw [if_neg h0]
      unfold littleVal
      rw [ih (n / 10) (by rw [pow_succ] at hn; omega)]
      omega

theorem natDigitsRev_lt (fuel : Nat) : ∀ n, ∀ d ∈ natDigitsRev fuel n, d < 10 := by
  induction fuel with
  | zero => intro n d hd; cases hd
  | succ f ih =>
    intro n d hd
    unfold natDigitsRev at hd
    by_cases h0 : n = 0
    · rw [if_pos h0] at hd; cases hd
    · rw [if_neg h0] at hd
      rcases List.mem_cons.mp hd with rfl | hmem
      · omega
      · exact ih (n / 10) d hmem

theorem natDigitsRev_length (fuel : Nat) : ∀ n e, n < 10 ^ e →
    (natDigitsRev fuel n).length ≤ e := by
  induction fuel with
  | zero => intro n e _; simp [natDigitsRev]
  | succ f ih =>
    intro n e hn
    unfold natDigitsRev
    by_cases h0 : n = 0
    · simp [h0]
    · rw [if_neg h0]
      have he : e ≠ 0 := by
        intro h
        rw [h, pow_zero] at hn
        omega
      rcases Nat.exists_eq_succ_of_ne_zero he with ⟨e', rfl⟩
      have : n / 10 < 10 ^ e' := by
        rw [pow_succ] at hn
        omega
      simpa using ih (n / 10) e' this

/-- The integer value carried by a decimal character string (the digit values
of `natDecChars`). -/
theorem digitVal?_digitChar : ∀ d, d < 10 → digitVal? (Nat.digitChar d) = some d := by decide

/-- A head-is-not-a-digit side condition for greedy digit lexing. -/
def NoDigitHead : List Char → Prop
  | [] => True
  | c :: _ => digitVal? c = none

theorem takeDigits_map_digitChar (ds : List Nat) (hds : ∀ d ∈ ds, d < 10)
    (rest : List Char) (hrest : NoDigitHead rest) :
    takeDigits digitVal? (ds.map Nat.digitChar ++ rest) = (ds, rest) := by
  induction ds with
  | nil =>
    cases rest with
    | nil => rfl
    | cons c r =>
      show takeDigits digitVal? (c :: r) = ([], c :: r)
      unfold takeDigits
      rw [show digitVal? c = none from hrest]
  | cons d t ih =>
    show takeDigits digitVal? (Nat.digitChar d :: (t.map Nat.digitChar ++ rest)) = (d :: t, rest)
    unfold takeDigits
    rw [digitVal?_digitChar d (hds d (by simp))]
    rw [ih (fun x hx => hds x (by simp [hx]))]

theorem natDecChars_digits (n : Nat) :
    ∃ ds, natDecChars n = ds.map Nat.digitChar ∧ (∀ d ∈ ds, d < 10) ∧
      digitsToNat 10 ds = n ∧ ds ≠ [] ∧ (n < 10 ^ 1 → ds.length ≤ 1) ∧
      (∀ e, n < 10 ^ e → 1 ≤ e → ds.length ≤ e) := by
  by_cases h0 : n = 0
  · subst h0
    refine ⟨[0], by decide, by decide, by decide, by decide, by simp, ?_⟩
    intro e _ he
    simpa using he
  · refine ⟨(natDigitsRev (n + 1) n).reverse, ?_, ?_, ?_, ?_, ?_, ?_⟩
    · simp [natDecChars, h0]
    · intro d hd
      exact natDigitsRev_lt (n + 1) n d (List.mem_reverse.mp hd)
    · rw [digitsToNat_reverse]
      exact littleVal_natDigitsRev (n + 1) n
        (lt_of_lt_of_le (Nat.lt_pow_self (by norm_num) n)
          (Nat.pow_le_pow_right (by norm_num) (Nat.le_succ n)))
    · have : natDigitsRev (n + 1) n ≠ [] := by
        unfold natDigitsRev
        rw [if_neg h0]
        simp
      simpa using this
    · intro hn
      simpa using natDigitsRev_length (n + 1) n 1 hn
    · intro e hn _
      simpa using natDigitsRev_length (n + 1) n e hn

/-- A JSON value.  A number is carried as a decimal: integer mantissa `m` and
fraction length `e`, denoting `m / 10 ^ e` — every IEEE double (hence every
number JavaScript serialises) is such a decimal. -/
inductive Json where
  | jnum (m : Int) (e : Nat)
  | jstr (s : String)
  | jbool (b : Bool)
  | jnull
  | jarr (xs : List Json)
  | jobj (fs : List (String × Json))

/-- Digits of an unsigned decimal: the integer part, then — when the fraction
length is positive — a point and exactly `e` fraction digits. -/
def renderNumAbs (a e : Nat) : List Char :=
  if e = 0 then natDecChars a
  else natDecChars (a / 10 ^ e) ++ '.' :: padLeftZeros e (natDecChars (a % 10 ^ e))

/-- A signed JSON number literal. -/
def renderNum (m : Int) (e : Nat) : List Char :=
  if m < 0 then '-' :: renderNumAbs m.natAbs e else renderNumAbs m.natAbs e

/-- An indentation run. -/
def spaces (n : Nat) : List Char :=
  List.replicate n ' '

mutual

/-- `JSON.stringify(v, null, 2)` at nesting indentation `ind`: atoms print
bare; a non-empty array/object opens its bracket, puts each element on its
own line indented two deeper (object fields as `"key": value`), separates
elements with commas, and closes the bracket on its own line at the outer
indentation; empty collections print as the bare bracket pair. -/
def renderJ : Json → Nat → List Char
  | Json.jnum m e, _ => renderNum m e
  | Json.jstr s, _ => renderStr s
  | Json.jbool true, _ => ['t', 'r', 'u', 'e']
  | Json.jbool false, _ => ['f', 'a', 'l', 's', 'e']
  | Json.jnull, _ => ['n', 'u', 'l', 'l']
  | Json.jarr [], _ => ['[', ']']
  | Json.jarr (x :: t), ind =>
    '[' :: '\n' :: (spaces (ind + 2) ++ renderJ x (ind + 2)) ++ renderMoreItems t ind
      ++ '\n' :: (spaces ind ++ [']'])
  | Json.jobj [], _ => ['\x7b', '\x7d']
  | Json.jobj (f :: t), ind =>
    '\x7b' :: '\n' :: (spaces (ind + 2) ++ renderStr f.1 ++ ':' :: ' ' :: renderJ f.2 (ind + 2))
      ++ renderMoreFields t ind ++ '\n' :: (spaces ind ++ ['\x7d'])

/-- Second and later array elements, each preceded by `,\n` and indentation. -/
def renderMoreItems : List Json → Nat → List Char
  | [], _ => []
  | x :: t, ind =>
    ',' :: '\n' :: (spaces (ind + 2) ++ renderJ x (ind + 2)) ++ renderMoreItems t ind

/-- Second and later object fields, each preceded by `,\n` and indentation. -/
def renderMoreFields : List (String × Json) → Nat → List Char
  | [], _ => []
  | f :: t, ind =>
    ',' :: '\n' :: (spaces (ind + 2) ++ renderStr f.1 ++ ':' :: ' ' :: renderJ f.2 (ind + 2))
      ++ renderMoreFields t ind

end

mutual

/-- Fuel for parsing a value (one unit per node and per list element). -/
def jsonFuel : Json → Nat
  | Json.jnum _ _ => 1
  | Json.jstr _ => 1
  | Json.jbool _ => 1
  | Json.jnull => 1
  | Json.jarr xs => 1 + itemsFuel xs
  | Json.jobj fs => 1 + fieldsFuel fs

/-- Fuel for parsing the elements of an array. -/
def itemsFuel : List Json → Nat
  | [] => 0
  | x :: t => 1 + jsonFuel x + itemsFuel t

/-- Fuel for parsing the fields of an object. -/
def fieldsFuel : List (String × Json) → Nat
  | [] => 0
  | f :: t => 1 + jsonFuel f.2 + fieldsFuel t

end

/-- An unsigned JSON number: longest digit run, optionally a point and a
second digit run; yields the scaled mantissa and the fraction length. -/
def pNumAbs (cs : List Char) : Option ((Nat × Nat) × List Char) :=
  match takeDigits digitVal? cs with
  | ([], _) => none
  | (ds, r1) =>
    match r1 with
    | '.' :: r2 =>
      match takeDigits digitVal? r2 with
      | ([], _) => none
      | (fs, r3) =>
        some ((digitsToNat 10 ds * 10 ^ fs.length + digitsToNat 10 fs, fs.length), r3)
    | _ => some ((digitsToNat 10 ds, 0), r1)

mutual

/-- Fueled recursive-descent JSON value parser (whitespace-insensitive; the
exponent forms `JSON.parse` also accepts never occur in stringified output
and are omitted). -/
def pVal : Nat → List Char → Option (Json × List Char)
  | 0, _ => none
  | fuel + 1, cs =>
    match skipWs cs with
    | '"' :: r => (parseStrBody r).map (fun p => (Json.jstr (String.mk p.1), p.2))
    | 't' :: 'r' :: 'u' :: 'e' :: r => some (Json.jbool true, r)
    | 'f' :: 'a' :: 'l' :: 's' :: 'e' :: r => some (Json.jbool false, r)
    | 'n' :: 'u' :: 'l' :: 'l' :: r => some (Json.jnull, r)
    | '[' :: r =>
      match skipWs r with
      | ']' :: r2 => some (Json.jarr [], r2)
      | _ => (pItems fuel r).map (fun p => (Json.jarr p.1, p.2))
    | '\x7b' :: r =>
      match skipWs r with
      | '\x7d' :: r2 => some (Json.jobj [], r2)
      | _ => (pFields fuel r).map (fun p => (Json.jobj p.1, p.2))
    | '-' :: r => (pNumAbs r).map (fun p => (Json.jnum (-(p.1.1 : Int)) p.1.2, p.2))
    | c :: r =>
      if (digitVal? c).isSome then
        (pNumAbs (c :: r)).map (fun p => (Json.jnum (p.1.1 : Int) p.1.2, p.2))
      else none
    | [] => none

/-- One-or-more comma-separated array elements up to the closing bracket. -/
def pItems : Nat → List Char → Option (List Json × List Char)
  | 0, _ => none
  | fuel + 1, cs =>
    match pVal fuel cs with
    | none => none
    | some (x, r) =>
      match skipWs r with
      | ',' :: r2 =>
        match pItems fuel r2 with
        | none => none
        | some (xs, r3) => some (x :: xs, r3)
      | ']' :: r2 => some ([x], r2)
      | _ => none

/-- One-or-more comma-separated object fields up to the closing bracket. -/
def pFields : Nat → List Char → Option (List (String × Json) × List Char)
  | 0, _ => none
  | fuel + 1, cs =>
    match skipWs cs with
    | '"' :: r =>
      match parseStrBody r with
      | none => none
      | some (key, r2) =>
        match skipWs r2 with
        | ':' :: r3 =>
          match pVal fuel r3 with
          | none => none
          | some (v, r4) =>
            match skipWs r4 with
            | ',' :: r5 =>
              match pFields fuel r5 with
              | none => none
              | some (fs, r6) => some ((String.mk key, v) :: fs, r6)
            | '\x7d' :: r5 => some ([(String.mk key, v)], r5)
            | _ => none
        | _ => none
    | _ => none

end

/-- A run of insignificant whitespace. -/
def WsOnly (W : List Char) : Prop :=
  ∀ c ∈ W, isJsonWs c = true

/-- The rest after a rendered number must not begin with a digit or a point
(all printer-produced followers satisfy this). -/
def DelimOk : List Char → Prop
  | [] => True
  | c :: _ => digitVal? c = none ∧ c ≠ '.'

/-- A rendered value begins with a non-whitespace character that is neither a
closing bracket nor a closing brace. -/
def GoodHead : List Char → Prop
  | [] => False
  | c :: _ => isJsonWs c = false ∧ c ≠ ']' ∧ c ≠ '\x7d'

theorem skipWs_ws_append (W cs : List Char) (hW : WsOnly W) :
    skipWs (W ++ cs) = skipWs cs := by
  induction W with
  | nil => rfl
  | cons c t ih =>
    show skipWs (c :: (t ++ cs)) = skipWs cs
    unfold skipWs at *
    rw [List.dropWhile_cons_of_pos (hW c (by simp))]
    exact ih (fun x hx => hW x (by simp [hx]))

theorem skipWs_goodHead (cs : List Char) (h : GoodHead cs) : skipWs cs = cs := by
  cases cs with
  | nil => cases h
  | cons c t =>
    unfold skipWs
    rw [List.dropWhile_cons_of_neg (by simp [h.1])]

theorem goodHead_append (cs rest : List Char) (h : GoodHead cs) : GoodHead (cs ++ rest) := by
  cases cs with
  | nil => cases h
  | cons c t => exact h

theorem digitChar_props : ∀ d, d < 10 →
    Nat.digitChar d ≠ '"' ∧ Nat.digitChar d ≠ 't' ∧ Nat.digitChar d ≠ 'f' ∧
    Nat.digitChar d ≠ 'n' ∧ Nat.digitChar d ≠ '[' ∧ Nat.digitChar d ≠ '\x7b' ∧
    Nat.digitChar d ≠ '-' ∧ isJsonWs (Nat.digitChar d) = false ∧
    Nat.digitChar d ≠ ']' ∧ Nat.digitChar d ≠ '\x7d' := by decide

theorem renderNumAbs_goodHead (a e : Nat) : GoodHead (renderNumAbs a e) := by
  obtain ⟨ds, hmap, hlt, -, hne, -, -⟩ := natDecChars_digits (if e = 0 then a else a / 10 ^ e)
  rcases ds with _ | ⟨d, ds'⟩
  · exact absurd rfl hne
  · have hd := digitChar_props d (hlt d (by simp))
    unfold renderNumAbs
    by_cases he : e = 0
    · rw [if_pos he]
      rw [if_pos he] at hmap
      rw [hmap]
      exact ⟨hd.2.2.2.2.2.2.2.1, hd.2.2.2.2.2.2.2.2.1, hd.2.2.2.2.2.2.2.2.2⟩
    · rw [if_neg he]
      rw [if_neg he] at hmap
      rw [hmap]
      exact ⟨hd.2.2.2.2.2.2.2.1, hd.2.2.2.2.2.2.2.2.1, hd.2.2.2.2.2.2.2.2.2⟩

theorem renderNum_goodHead (m : Int) (e : Nat) : GoodHead (renderNum m e) := by
  unfold renderNum
  by_cases hm : m < 0
  · rw [if_pos hm]
    exact ⟨by decide, by decide, by decide⟩
  · rw [if_neg hm]
    exact renderNumAbs_goodHead m.natAbs e

theorem renderStr_goodHead (s : String) : GoodHead (renderStr s) :=
  ⟨by decide, by decide, by decide⟩

theorem renderJ_goodHead (j : Json) (ind : Nat) : GoodHead (renderJ j ind) := by
  cases j with
  | jnum m e => exact renderNum_goodHead m e
  | jstr s => exact renderStr_goodHead s
  | jbool b => cases b <;> exact ⟨by decide, by decide, by decide⟩
  | jnull => exact ⟨by decide, by decide, by decide⟩
  | jarr xs =>
    cases xs with
    | nil => exact ⟨by decide, by decide, by decide⟩
    | cons x t =>
      show GoodHead ('[' :: _)
      exact ⟨by decide, by decide, by decide⟩
  | jobj fs =>
    cases fs with
    | nil => exact ⟨by decide, by decide, by decide⟩
    | cons f t =>
      show GoodHead ('\x7b' :: _)
      exact ⟨by decide, by decide, by decide⟩

theorem digitsToNat_replicate_zero (k : Nat) (ds : List Nat) :
    digitsToNat 10 (List.replicate k 0 ++ ds) = digitsToNat 10 ds := by
  induction k with
  | zero => rfl
  | succ n ih =>
    rw [List.replicate_succ]
    show digitsToNat 10 (0 :: (List.replicate n 0 ++ ds)) = _
    unfold digitsToNat at *
    simpa using ih

theorem noDigitHead_of_delimOk (rest : List Char) (h : DelimOk rest) : NoDigitHead rest := by
  cases rest with
  | nil => trivial
  | cons c r => exact h.1

/-- Parsing a rendered unsigned decimal recovers the mantissa and fraction
length. -/
theorem pNumAbs_render (a e : Nat) (rest : List Char) (hrest : DelimOk rest) :
    pNumAbs (renderNumAbs a e ++ rest) = some ((a, e), rest) := by
  have hnd : NoDigitHead rest := noDigitHead_of_delimOk rest hrest
  by_cases he : e = 0
  · subst he
    obtain ⟨ds, hmap, hlt, hval, hne, -, -⟩ := natDecChars_digits a
    unfold renderNumAbs
    rw [if_pos rfl, hmap]
    unfold pNumAbs
    rw [takeDigits_map_digitChar ds hlt rest hnd]
    rcases ds with _ | ⟨d, ds'⟩
    · exact absurd rfl hne
    · show (match (rest : List Char) with
        | '.' :: r2 =>
          match takeDigits digitVal? r2 with
          | ([], _) => none
          | (fs, r3) =>
            some ((digitsToNat 10 (d :: ds') * 10 ^ fs.length + digitsToNat 10 fs, fs.length), r3)
        | _ => some ((digitsToNat 10 (d :: ds'), 0), rest)) = some ((a, 0), rest)
      cases rest with
      | nil => rw [hval]
      | cons c r =>
        split
        · rename_i heq
          injection heq with hh _
          exact absurd hh hrest.2
        · rw [hval]
  · obtain ⟨ids, himap, hilt, hival, hine, -, -⟩ := natDecChars_digits (a / 10 ^ e)
    obtain ⟨fds, hfmap, hflt, hfval, hfne, -, hflen⟩ := natDecChars_digits (a % 10 ^ e)
    have hfrac : a % 10 ^ e < 10 ^ e := Nat.mod_lt a (Nat.pos_pow_of_pos e (by norm_num))
    have hlenf : fds.length ≤ e := hflen e hfrac (by omega)
    have hpad : padLeftZeros e (natDecChars (a % 10 ^ e)) =
        (List.replicate (e - fds.length) 0 ++ fds).map Nat.digitChar := by
      unfold padLeftZeros
      rw [hfmap, List.map_append, List.map_replicate, List.length_map]
      rfl
    unfold renderNumAbs
    rw [if_neg he, himap, hpad]
    rw [List.append_assoc, List.cons_append]
    unfold pNumAbs
    have hTD := takeDigits_map_digitChar ids hilt
      ('.' :: (List.map Nat.digitChar (List.replicate (e - fds.length) 0 ++ fds) ++ rest))
      (show digitVal? '.' = none by decide)
    rw [hTD]
    rcases ids with _ | ⟨i, ids'⟩
    · exact absurd rfl hine
    · have hall : ∀ d ∈ List.replicate (e - fds.length) 0 ++ fds, d < 10 := by
        intro d hd
        rcases List.mem_append.mp hd with hin | hin
        · rw [List.eq_of_mem_replicate hin]
          omega
        · exact hflt d hin
      have hne2 : List.replicate (e - fds.length) 0 ++ fds ≠ [] := by
        intro hcon
        exact hfne (List.append_eq_nil.mp hcon).2
      obtain ⟨g, gs, hg⟩ := List.exists_cons_of_ne_nil hne2
      show (match takeDigits digitVal?
          ((List.replicate (e - fds.length) 0 ++ fds).map Nat.digitChar ++ rest) with
        | ([], _) => none
        | (fs, r3) =>
          some ((digitsToNat 10 (i :: ids') * 10 ^ fs.length + digitsToNat 10 fs, fs.length), r3))
        = some ((a, e), rest)
      rw [takeDigits_map_digitChar _ hall rest hnd, hg]
      have hlen2 : (g :: gs).length = e := by
        rw [← hg]
        simp
        omega
      have hval2 : digitsToNat 10 (g :: gs) = a % 10 ^ e := by
        rw [← hg, digitsToNat_replicate_zero, hfval]
      show some ((digitsToNat 10 (i :: ids') * 10 ^ (g :: gs).length + digitsToNat 10 (g :: gs),
        (g :: gs).length), rest) = some ((a, e), rest)
      rw [hlen2, hval2, hival, Nat.mul_comm (a / 10 ^ e) (10 ^ e), Nat.div_add_mod]

theorem jsonFuel_pos (j : Json) : 1 ≤ jsonFuel j := by
  cases j <;> simp [jsonFuel]

/-- A rendered unsigned decimal starts with a digit character. -/
theorem renderNumAbs_cons (a e : Nat) :
    ∃ d tail, renderNumAbs a e = Nat.digitChar d :: tail ∧ d < 10 := by
  unfold renderNumAbs
  by_cases he : e = 0
  · rw [if_pos he]
    obtain ⟨ds, hmap, hlt, -, hne, -, -⟩ := natDecChars_digits a
    rcases ds with _ | ⟨d, ds'⟩
    · exact absurd rfl hne
    · exact ⟨d, _, by rw [hmap]; rfl, hlt d (by simp)⟩
  · rw [if_neg he]
    obtain ⟨ds, hmap, hlt, -, hne, -, -⟩ := natDecChars_digits (a / 10 ^ e)
    rcases ds with _ | ⟨d, ds'⟩
    · exact absurd rfl hne
    · exact ⟨d, _, by rw [hmap]; rfl, hlt d (by simp)⟩

/-- Mutual parser/pretty-printer round trip: with enough fuel, parsing a
rendered value (after any leading whitespace, before any delimiter-headed
tail) yields exactly that value; likewise for nonempty array element lists
and object field lists up to their closing bracket. -/
theorem parse_render (fuel : Nat) :
    (∀ j ind rest W, WsOnly W → DelimOk rest → jsonFuel j ≤ fuel →
      pVal fuel (W ++ (renderJ j ind ++ rest)) = some (j, rest)) ∧
    (∀ x t ind rest W, WsOnly W → itemsFuel (x :: t) ≤ fuel →
      pItems fuel (W ++ (renderJ x (ind + 2) ++
        (renderMoreItems t ind ++ ('\n' :: (spaces ind ++ ']' :: rest))))) =
        some (x :: t, rest)) ∧
    (∀ key v t ind rest W, WsOnly W → fieldsFuel ((key, v) :: t) ≤ fuel →
      pFields fuel (W ++ (renderStr key ++ (':' :: ' ' :: (renderJ v (ind + 2) ++
        (renderMoreFields t ind ++ ('\n' :: (spaces ind ++ '\x7d' :: rest))))))) =
        some ((key, v) :: t, rest)) := by
  induction fuel with
  | zero =>
    refine ⟨?_, ?_, ?_⟩
    · intro j _ _ _ _ _ hf
      have := jsonFuel_pos j
      omega
    · intro x t _ _ _ _ hf
      have : itemsFuel (x :: t) = 1 + jsonFuel x + itemsFuel t := rfl
      omega
    · intro key v t _ _ _ _ hf
      have : fieldsFuel ((key, v) :: t) = 1 + jsonFuel v + fieldsFuel t := rfl
      omega
  | succ f ih =>
    obtain ⟨ihV, ihI, ihF⟩ := ih
    refine ⟨?_, ?_, ?_⟩
    · -- pVal
      intro j ind rest W hW hD hfuel
      have hskips : skipWs (W ++ (renderJ j ind ++ rest)) = renderJ j ind ++ rest := by
        rw [skipWs_ws_append _ _ hW,
          skipWs_goodHead _ (goodHead_append _ _ (renderJ_goodHead j ind))]
      show (match skipWs (W ++ (renderJ j ind ++ rest)) with
        | '"' :: r => (parseStrBody r).map (fun p => (Json.jstr (String.mk p.1), p.2))
        | 't' :: 'r' :: 'u' :: 'e' :: r => some (Json.jbool true, r)
        | 'f' :: 'a' :: 'l' :: 's' :: 'e' :: r => some (Json.jbool false, r)
        | 'n' :: 'u' :: 'l' :: 'l' :: r => some (Json.jnull, r)
        | '[' :: r =>
          match skipWs r with
          | ']' :: r2 => some (Json.jarr [], r2)
          | _ => (pItems f r).map (fun p => (Json.jarr p.1, p.2))
        | '\x7b' :: r =>
          match skipWs r with
          | '\x7d' :: r2 => some (Json.jobj [], r2)
          | _ => (pFields f r).map (fun p => (Json.jobj p.1, p.2))
        | '-' :: r => (pNumAbs r).map (fun p => (Json.jnum (-(p.1.1 : Int)) p.1.2, p.2))
        | c :: r =>
          if (digitVal? c).isSome then
            (pNumAbs (c :: r)).map (fun p => (Json.jnum (p.1.1 : Int) p.1.2, p.2))
          else none
        | [] => none) = some (j, rest)
      rw [hskips]
      cases j with
      | jnum m e =>
        by_cases hm : m < 0
        · have hr : renderJ (Json.jnum m e) ind ++ rest =
              '-' :: (renderNumAbs m.natAbs e ++ rest) := by
            show renderNum m e ++ rest = _
            unfold renderNum
            rw [if_pos hm]
            rfl
          rw [hr]
          show (pNumAbs (renderNumAbs m.natAbs e ++ rest)).map
            (fun p => (Json.jnum (-(p.1.1 : Int)) p.1.2, p.2)) = some (Json.jnum m e, rest)
          rw [pNumAbs_render _ _ _ hD]
          show some (Json.jnum (-(m.natAbs : Int)) e, rest) = some (Json.jnum m e, rest)
          have habs : -(m.natAbs : Int) = m := by omega
          rw [habs]
        · obtain ⟨d, tail, htail, hd10⟩ := renderNumAbs_cons m.natAbs e
          have hr : renderJ (Json.jnum m e) ind ++ rest =
              Nat.digitChar d :: (tail ++ rest) := by
            show renderNum m e ++ rest = _
            unfold renderNum
            rw [if_neg hm, htail]
            rfl
          rw [hr]
          have hp := digitChar_props d hd10
          split
          · rename_i heq
            injection heq with hh _
            exact absurd hh hp.1
          · rename_i heq
            injection heq with hh _
            exact absurd hh hp.2.1
          · rename_i heq
            injection heq with hh _
            exact absurd hh hp.2.2.1
          · rename_i heq
            injection heq with hh _
            exact absurd hh hp.2.2.2.1
          · rename_i heq
            injection heq with hh _
            exact absurd hh hp.2.2.2.2.1
          · rename_i heq
            injection heq with hh _
            exact absurd hh hp.2.2.2.2.2.1
          · rename_i heq
            injection heq with hh _
            exact absurd hh hp.2.2.2.2.2.2.1
          · rename_i c r heq
            injection heq with hh ht
            subst hh ht
            rw [if_pos (by rw [digitVal?_digitChar d hd10]; rfl)]
            have hback : Nat.digitChar d :: (tail ++ rest) = renderNumAbs m.natAbs e ++ rest := by
              rw [htail]
              rfl
            rw [hback, pNumAbs_render _ _ _ hD]
            show some (Json.jnum ((m.natAbs : Int)) e, rest) = some (Json.jnum m e, rest)
            have habs : ((m.natAbs : Int)) = m := by omega
            rw [habs]
          · rename_i heq
            cases heq
      | jstr s =>
        have hr : renderJ (Json.jstr s) ind ++ rest =
            '"' :: (escList s.data ++ '"' :: rest) := by
          show renderStr s ++ rest = _
          unfold renderStr
          simp
        rw [hr]
        show (parseStrBody (escList s.data ++ '"' :: rest)).map
          (fun p => (Json.jstr (String.mk p.1), p.2)) = some (Json.jstr s, rest)
        rw [parseStrBody_escList]
        rfl
      | jbool b => cases b <;> rfl
      | jnull => rfl
      | jarr xs =>
        cases xs with
        | nil => rfl
        | cons x t =>
          have hr : renderJ (Json.jarr (x :: t)) ind ++ rest =
              '[' :: (('\n' :: spaces (ind + 2)) ++ (renderJ x (ind + 2) ++
                (renderMoreItems t ind ++ ('\n' :: (spaces ind ++ ']' :: rest))))) := by
            show ('[' :: '\n' :: (spaces (ind + 2) ++ renderJ x (ind + 2)) ++
              renderMoreItems t ind ++ '\n' :: (spaces ind ++ [']'])) ++ rest = _
            simp
          rw [hr]
          have hws : WsOnly ('\n' :: spaces (ind + 2)) := by
            intro c hc
            rcases List.mem_cons.mp hc with rfl | hc2
            · rfl
            · rw [List.eq_of_mem_replicate hc2]
              rfl
          have hskip2 : skipWs (('\n' :: spaces (ind + 2)) ++ (renderJ x (ind + 2) ++
              (renderMoreItems t ind ++ ('\n' :: (spaces ind ++ ']' :: rest))))) =
              renderJ x (ind + 2) ++
                (renderMoreItems t ind ++ ('\n' :: (spaces ind ++ ']' :: rest))) := by
            rw [skipWs_ws_append _ _ hws,
              skipWs_goodHead _ (goodHead_append _ _ (renderJ_goodHead x (ind + 2)))]
          show (match skipWs (('\n' :: spaces (ind + 2)) ++ (renderJ x (ind + 2) ++
              (renderMoreItems t ind ++ ('\n' :: (spaces ind ++ ']' :: rest))))) with
            | ']' :: r2 => some (Json.jarr [], r2)
            | _ => (pItems f (('\n' :: spaces (ind + 2)) ++ (renderJ x (ind + 2) ++
                (renderMoreItems t ind ++ ('\n' :: (spaces ind ++ ']' :: rest)))))).map
                (fun p => (Json.jarr p.1, p.2))) = some (Json.jarr (x :: t), rest)
          rw [hskip2]
          obtain ⟨c, cs, hcs⟩ : ∃ c cs, renderJ x (ind + 2) = c :: cs := by
            rcases hx : renderJ x (ind + 2) with _ | ⟨c, cs⟩
            · have := renderJ_goodHead x (ind + 2)
              rw [hx] at this
              cases this
            · exact ⟨c, cs, rfl⟩
          have hgh := renderJ_goodHead x (ind + 2)
          rw [hcs] at hgh
          rw [hcs]
          split
          · rename_i heq
            injection heq with hh _
            exact absurd hh hgh.2.1
          · rename_i hne heq
            rw [← hcs, ihI x t ind rest ('\n' :: spaces (ind + 2)) hws
              (by
                have : jsonFuel (Json.jarr (x :: t)) = 1 + itemsFuel (x :: t) := rfl
                omega)]
            rfl
      | jobj fs =>
        cases fs with
        | nil => rfl
        | cons fkv t =>
          obtain ⟨key, v⟩ := fkv
          have hr : renderJ (Json.jobj ((key, v) :: t)) ind ++ rest =
              '\x7b' :: (('\n' :: spaces (ind + 2)) ++ (renderStr key ++ (':' :: ' ' ::
                (renderJ v (ind + 2) ++ (renderMoreFields t ind ++
                  ('\n' :: (spaces ind ++ '\x7d' :: rest))))))) := by
            show ('\x7b' :: '\n' :: (spaces (ind + 2) ++ renderStr key ++ ':' :: ' ' ::
              renderJ v (ind + 2)) ++ renderMoreFields t ind ++
                '\n' :: (spaces ind ++ ['\x7d'])) ++ rest = _
            simp
          rw [hr]
          have hws : WsOnly ('\n' :: spaces (ind + 2)) := by
            intro c hc
            rcases List.mem_cons.mp hc with rfl | hc2
            · rfl
            · rw [List.eq_of_mem_replicate hc2]
              rfl
          have hskip2 : skipWs (('\n' :: spaces (ind + 2)) ++ (renderStr key ++ (':' :: ' ' ::
              (renderJ v (ind + 2) ++ (renderMoreFields t ind ++
                ('\n' :: (spaces ind ++ '\x7d' :: rest))))))) =
              renderStr key ++ (':' :: ' ' :: (renderJ v (ind + 2) ++
                (renderMoreFields t ind ++ ('\n' :: (spaces ind ++ '\x7d' :: rest))))) := by
            rw [skipWs_ws_append _ _ hws,
              skipWs_goodHead _ (goodHead_append _ _ (renderStr_goodHead key))]
          show (match skipWs (('\n' :: spaces (ind + 2)) ++ (renderStr key ++ (':' :: ' ' ::
              (renderJ v (ind + 2) ++ (renderMoreFields t ind ++
                ('\n' :: (spaces ind ++ '\x7d' :: rest))))))) with
            | '\x7d' :: r2 => some (Json.jobj [], r2)
            | _ => (pFields f (('\n' :: spaces (ind + 2)) ++ (renderStr key ++ (':' :: ' ' ::
                (renderJ v (ind + 2) ++ (renderMoreFields t ind ++
                  ('\n' :: (spaces ind ++ '\x7d' :: rest)))))))).map
                (fun p => (Json.jobj p.1, p.2))) = some (Json.jobj ((key, v) :: t), rest)
          rw [hskip2]
          show ((pFields f (('\n' :: spaces (ind + 2)) ++ (renderStr key ++ (':' :: ' ' ::
              (renderJ v (ind + 2) ++ (renderMoreFields t ind ++
                ('\n' :: (spaces ind ++ '\x7d' :: rest)))))))).map
              (fun p => (Json.jobj p.1, p.2))) = some (Json.jobj ((key, v) :: t), rest)
          rw [ihF key v t ind rest ('\n' :: spaces (ind + 2)) hws
            (by
              have : jsonFuel (Json.jobj ((key, v) :: t)) = 1 + fieldsFuel ((key, v) :: t) := rfl
              omega)]
          rfl
    · -- pItems
      intro x t ind rest W hW hfuel
      have hfx : jsonFuel x ≤ f := by
        have : itemsFuel (x :: t) = 1 + jsonFuel x + itemsFuel t := rfl
        omega
      have hD2 : DelimOk (renderMoreItems t ind ++ ('\n' :: (spaces ind ++ ']' :: rest))) := by
        cases t with
        | nil => exact ⟨by decide, by decide⟩
        | cons y t' => exact ⟨by decide, by decide⟩
      show (match pVal f (W ++ (renderJ x (ind + 2) ++ (renderMoreItems t ind ++
          ('\n' :: (spaces ind ++ ']' :: rest))))) with
        | none => none
        | some (x', r) =>
          match skipWs r with
          | ',' :: r2 =>
            match pItems f r2 with
            | none => none
            | some (xs, r3) => some (x' :: xs, r3)
          | ']' :: r2 => some ([x'], r2)
          | _ => none) = some (x :: t, rest)
      rw [ihV x (ind + 2) _ W hW hD2 hfx]
      show (match skipWs (renderMoreItems t ind ++ ('\n' :: (spaces ind ++ ']' :: rest))) with
        | ',' :: r2 =>
          match pItems f r2 with
          | none => none
          | some (xs, r3) => some (x :: xs, r3)
        | ']' :: r2 => some ([x], r2)
        | _ => none) = some (x :: t, rest)
      cases t with
      | nil =>
        have hskip3 : skipWs (renderMoreItems [] ind ++ ('\n' :: (spaces ind ++ ']' :: rest))) =
            ']' :: rest := by
          show skipWs ('\n' :: (spaces ind ++ ']' :: rest)) = ']' :: rest
          have : WsOnly ('\n' :: spaces ind) := by
            intro c hc
            rcases List.mem_cons.mp hc with rfl | hc2
            · rfl
            · rw [List.eq_of_mem_replicate hc2]
              rfl
          have h2 : ('\n' :: (spaces ind ++ ']' :: rest)) =
              ('\n' :: spaces ind) ++ (']' :: rest) := by simp
          rw [h2, skipWs_ws_append _ _ this]
          rfl
        rw [hskip3]
        rfl
      | cons y t' =>
        have hmi : renderMoreItems (y :: t') ind ++ ('\n' :: (spaces ind ++ ']' :: rest)) =
            ',' :: (('\n' :: spaces (ind + 2)) ++ (renderJ y (ind + 2) ++
              (renderMoreItems t' ind ++ ('\n' :: (spaces ind ++ ']' :: rest))))) := by
          show (',' :: '\n' :: (spaces (ind + 2) ++ renderJ y (ind + 2)) ++
            renderMoreItems t' ind) ++ ('\n' :: (spaces ind ++ ']' :: rest)) = _
          simp
        rw [hmi]
        have hws : WsOnly ('\n' :: spaces (ind + 2)) := by
          intro c hc
          rcases List.mem_cons.mp hc with rfl | hc2
          · rfl
          · rw [List.eq_of_mem_replicate hc2]
            rfl
        show (match pItems f (('\n' :: spaces (ind + 2)) ++ (renderJ y (ind + 2) ++
            (renderMoreItems t' ind ++ ('\n' :: (spaces ind ++ ']' :: rest))))) with
          | none => none
          | some (xs, r3) => some (x :: xs, r3)) = some (x :: y :: t', rest)
        rw [ihI y t' ind rest ('\n' :: spaces (ind + 2)) hws
          (by
            have h1 : itemsFuel (x :: y :: t') = 1 + jsonFuel x + itemsFuel (y :: t') := rfl
            omega)]
    · -- pFields
      intro key v t ind rest W hW hfuel
      have hfv : jsonFuel v ≤ f := by
        have : fieldsFuel ((key, v) :: t) = 1 + jsonFuel v + fieldsFuel t := rfl
        omega
      have hskipk : skipWs (W ++ (renderStr key ++ (':' :: ' ' :: (renderJ v (ind + 2) ++
          (renderMoreFields t ind ++ ('\n' :: (spaces ind ++ '\x7d' :: rest))))))) =
          renderStr key ++ (':' :: ' ' :: (renderJ v (ind + 2) ++
            (renderMoreFields t ind ++ ('\n' :: (spaces ind ++ '\x7d' :: rest))))) := by
        rw [skipWs_ws_append _ _ hW,
          skipWs_goodHead _ (goodHead_append _ _ (renderStr_goodHead key))]
      have hD2 : DelimOk (renderMoreFields t ind ++ ('\n' :: (spaces ind ++ '\x7d' :: rest))) := by
        cases t with
        | nil => exact ⟨by decide, by decide⟩
        | cons g t' => exact ⟨by decide, by decide⟩
      show (match skipWs (W ++ (renderStr key ++ (':' :: ' ' :: (renderJ v (ind + 2) ++
          (renderMoreFields t ind ++ ('\n' :: (spaces ind ++ '\x7d' :: rest))))))) with
        | '"' :: r =>
          match parseStrBody r with
          | none => none
          | some (k2, r2) =>
            match skipWs r2 with
            | ':' :: r3 =>
              match pVal f r3 with
              | none => none
              | some (v2, r4) =>
                match skipWs r4 with
                | ',' :: r5 =>
                  match pFields f r5 with
                  | none => none
                  | some (fs, r6) => some ((String.mk k2, v2) :: fs, r6)
                | '\x7d' :: r5 => some ([(String.mk k2, v2)], r5)
                | _ => none
            | _ => none
        | _ => none) = some ((key, v) :: t, rest)
      rw [hskipk]
      have hkey : renderStr key ++ (':' :: ' ' :: (renderJ v (ind + 2) ++
          (renderMoreFields t ind ++ ('\n' :: (spaces ind ++ '\x7d' :: rest))))) =
          '"' :: (escList key.data ++ '"' :: (':' :: ' ' :: (renderJ v (ind + 2) ++
            (renderMoreFields t ind ++ ('\n' :: (spaces ind ++ '\x7d' :: rest)))))) := by
        unfold renderStr
        simp
      rw [hkey]
      show (match parseStrBody (escList key.data ++ '"' :: (':' :: ' ' :: (renderJ v (ind + 2) ++
          (renderMoreFields t ind ++ ('\n' :: (spaces ind ++ '\x7d' :: rest)))))) with
        | none => none
        | some (k2, r2) =>
          match skipWs r2 with
          | ':' :: r3 =>
            match pVal f r3 with
            | none => none
            | some (v2, r4) =>
              match skipWs r4 with
              | ',' :: r5 =>
                match pFields f r5 with
                | none => none
                | some (fs, r6) => some ((String.mk k2, v2) :: fs, r6)
              | '\x7d' :: r5 => some ([(String.mk k2, v2)], r5)
              | _ => none
          | _ => none) = some ((key, v) :: t, rest)
      rw [parseStrBody_escList]
      show (match pVal f (' ' :: (renderJ v (ind + 2) ++ (renderMoreFields t ind ++
          ('\n' :: (spaces ind ++ '\x7d' :: rest))))) with
        | none => none
        | some (v2, r4) =>
          match skipWs r4 with
          | ',' :: r5 =>
            match pFields f r5 with
            | none => none
            | some (fs, r6) => some ((String.mk key.data, v2) :: fs, r6)
          | '\x7d' :: r5 => some ([(String.mk key.data, v2)], r5)
          | _ => none) = some ((key, v) :: t, rest)
      have hv := ihV v (ind + 2)
        (renderMoreFields t ind ++ ('\n' :: (spaces ind ++ '\x7d' :: rest)))
        [' '] (by intro c hc; rcases List.mem_singleton.mp hc with rfl; rfl) hD2 hfv
      have hsp : ([' '] : List Char) ++ (renderJ v (ind + 2) ++ (renderMoreFields t ind ++
          ('\n' :: (spaces ind ++ '\x7d' :: rest)))) =
          ' ' :: (renderJ v (ind + 2) ++ (renderMoreFields t ind ++
            ('\n' :: (spaces ind ++ '\x7d' :: rest)))) := rfl
      rw [hsp] at hv
      rw [hv]
      show (match skipWs (renderMoreFields t ind ++ ('\n' :: (spaces ind ++ '\x7d' :: rest))) with
        | ',' :: r5 =>
          match pFields f r5 with
          | none => none
          | some (fs, r6) => some ((String.mk key.data, v) :: fs, r6)
        | '\x7d' :: r5 => some ([(String.mk key.data, v)], r5)
        | _ => none) = some ((key, v) :: t, rest)
      cases t with
      | nil =>
        have hskip3 : skipWs (renderMoreFields [] ind ++
            ('\n' :: (spaces ind ++ '\x7d' :: rest))) = '\x7d' :: rest := by
          show skipWs ('\n' :: (spaces ind ++ '\x7d' :: rest)) = '\x7d' :: rest
          have hws2 : WsOnly ('\n' :: spaces ind) := by
            intro c hc
            rcases List.mem_cons.mp hc with rfl | hc2
            · rfl
            · rw [List.eq_of_mem_replicate hc2]
              rfl
          have h2 : ('\n' :: (spaces ind ++ '\x7d' :: rest)) =
              ('\n' :: spaces ind) ++ ('\x7d' :: rest) := by simp
          rw [h2, skipWs_ws_append _ _ hws2]
          rfl
        rw [hskip3]
        rfl
      | cons g t' =>
        obtain ⟨key2, v2⟩ := g
        have hmf : renderMoreFields ((key2, v2) :: t') ind ++
            ('\n' :: (spaces ind ++ '\x7d' :: rest)) =
            ',' :: (('\n' :: spaces (ind + 2)) ++ (renderStr key2 ++ (':' :: ' ' ::
              (renderJ v2 (ind + 2) ++ (renderMoreFields t' ind ++
                ('\n' :: (spaces ind ++ '\x7d' :: rest))))))) := by
          show (',' :: '\n' :: (spaces (ind + 2) ++ renderStr key2 ++ ':' :: ' ' ::
            renderJ v2 (ind + 2)) ++ renderMoreFields t' ind) ++
              ('\n' :: (spaces ind ++ '\x7d' :: rest)) = _
          simp
        rw [hmf]
        have hws : WsOnly ('\n' :: spaces (ind + 2)) := by
          intro c hc
          rcases List.mem_cons.mp hc with rfl | hc2
          · rfl
          · rw [List.eq_of_mem_replicate hc2]
            rfl
        show (match pFields f (('\n' :: spaces (ind + 2)) ++ (renderStr key2 ++ (':' :: ' ' ::
            (renderJ v2 (ind + 2) ++ (renderMoreFields t' ind ++
              ('\n' :: (spaces ind ++ '\x7d' :: rest))))))) with
          | none => none
          | some (fs, r6) => some ((String.mk key.data, v) :: fs, r6)) =
          some ((key, v) :: (key2, v2) :: t', rest)
        rw [ihF key2 v2 t' ind rest ('\n' :: spaces (ind + 2)) hws
          (by
            have h1 : fieldsFuel ((key, v) :: (key2, v2) :: t') =
              1 + jsonFuel v + fieldsFuel ((key2, v2) :: t') := rfl
            omega)]

mutual

theorem renderJ_len : ∀ (j : Json) (ind : Nat), jsonFuel j ≤ (renderJ j ind).length
  | Json.jnum m e, ind => by
    obtain ⟨d, tail, htail, -⟩ := renderNumAbs_cons m.natAbs e
    show jsonFuel (Json.jnum m e) ≤ (renderNum m e).length
    unfold renderNum
    split
    · simp [jsonFuel]
    · rw [htail]
      simp [jsonFuel]
  | Json.jstr s, ind => by
    show jsonFuel (Json.jstr s) ≤ ('"' :: escList s.data ++ ['"']).length
    simp [jsonFuel]
  | Json.jbool true, ind => by
    show (1 : Nat) ≤ 4
    omega
  | Json.jbool false, ind => by
    show (1 : Nat) ≤ 5
    omega
  | Json.jnull, ind => by
    show (1 : Nat) ≤ 4
    omega
  | Json.jarr [], ind => by
    show (1 : Nat) ≤ 2
    omega
  | Json.jarr (x :: t), ind => by
    have h1 := renderJ_len x (ind + 2)
    have h2 := renderMoreItems_len t ind
    show jsonFuel (Json.jarr (x :: t)) ≤
      ('[' :: '\n' :: (spaces (ind + 2) ++ renderJ x (ind + 2)) ++ renderMoreItems t ind
        ++ '\n' :: (spaces ind ++ [']'])).length
    have he : jsonFuel (Json.jarr (x :: t)) = 1 + (1 + jsonFuel x + itemsFuel t) := rfl
    simp [he]
    omega
  | Json.jobj [], ind => by
    show (1 : Nat) ≤ 2
    omega
  | Json.jobj (f :: t), ind => by
    have h1 := renderJ_len f.2 (ind + 2)
    have h2 := renderMoreFields_len t ind
    show jsonFuel (Json.jobj (f :: t)) ≤
      ('\x7b' :: '\n' :: (spaces (ind + 2) ++ renderStr f.1 ++ ':' :: ' ' ::
        renderJ f.2 (ind + 2)) ++ renderMoreFields t ind
          ++ '\n' :: (spaces ind ++ ['\x7d'])).length
    have he : jsonFuel (Json.jobj (f :: t)) = 1 + (1 + jsonFuel f.2 + fieldsFuel t) := rfl
    simp [he, renderStr]
    omega

theorem renderMoreItems_len : ∀ (t : List Json) (ind : Nat),
    itemsFuel t ≤ (renderMoreItems t ind).length
  | [], ind => Nat.zero_le _
  | x :: t, ind => by
    have h1 := renderJ_len x (ind + 2)
    have h2 := renderMoreItems_len t ind
    show itemsFuel (x :: t) ≤
      (',' :: '\n' :: (spaces (ind + 2) ++ renderJ x (ind + 2)) ++ renderMoreItems t ind).length
    have he : itemsFuel (x :: t) = 1 + jsonFuel x + itemsFuel t := rfl
    simp [he]
    omega

theorem renderMoreFields_len : ∀ (t : List (String × Json)) (ind : Nat),
    fieldsFuel t ≤ (renderMoreFields t ind).length
  | [], ind => Nat.zero_le _
  | f :: t, ind => by
    have h1 := renderJ_len f.2 (ind + 2)
    have h2 := renderMoreFields_len t ind
    show fieldsFuel (f :: t) ≤
      (',' :: '\n' :: (spaces (ind + 2) ++ renderStr f.1 ++ ':' :: ' ' ::
        renderJ f.2 (ind + 2)) ++ renderMoreFields t ind).length
    have he : fieldsFuel (f :: t) = 1 + jsonFuel f.2 + fieldsFuel t := rfl
    simp [he, renderStr]
    omega

end

/-- `JSON.stringify(v, null, 2)` as a string. -/
def stringifyPretty (j : Json) : String :=
  String.mk (renderJ j 0)

/-- `JSON.parse`: parse one value and require only whitespace to remain. -/
def jsonParse (s : String) : Option Json :=
  match pVal (s.data.length + 1) s.data with
  | some (j, rest) => if skipWs rest = [] then some j else none
  | none => none

/-- Re-parsing pretty-printed output recovers the exact value. -/
theorem jsonParse_stringifyPretty (j : Json) : jsonParse (stringifyPretty j) = some j := by
  unfold jsonParse stringifyPretty
  have hfuel : jsonFuel j ≤ (renderJ j 0).length + 1 :=
    le_trans (renderJ_len j 0) (Nat.le_succ _)
  have hp := (parse_render ((renderJ j 0).length + 1)).1 j 0 [] []
    (fun c hc => absurd hc (List.not_mem_nil c)) trivial hfuel
  simp only [List.nil_append, List.append_nil] at hp
  show (match pVal ((renderJ j 0).length + 1) (renderJ j 0) with
    | some (j', rest) => if skipWs rest = [] then some j' else none
    | none => none) = some j
  rw [hp]
  rfl

/-- Least exponent `e` with `den ∣ 10 ^ e`, if one exists up to `den` (for
`den = 2^a * 5^b` the needed `e = max a b` is at most `den`; other
denominators have none).  Every IEEE double is a binary fraction, hence such
a decimal. -/
def decExp? (den : Nat) : Option Nat :=
  (List.range (den + 1)).find? (fun e => 10 ^ e % den == 0)

/-- A rational as an exact decimal `(mantissa, fraction length)`, when it is
one. -/
def ratDec? (q : ℚ) : Option (Int × Nat) :=
  (decExp? q.den).map (fun e => (q.num * ((10 ^ e / q.den : Nat) : Int), e))

/-- Reflection of a JavaScript number into a JSON number leaf. -/
def jsonOfRat (q : ℚ) : Option Json :=
  (ratDec? q).map (fun p => Json.jnum p.1 p.2)

/-- Reflection of one `decisions` element, fields in wire order. -/
def decisionJson (a : AgentDecision) : Option Json := do
  let cash ← jsonOfRat a.cash
  let pos ← jsonOfRat a.pos
  let value ← jsonOfRat a.value
  return Json.jobj [("name", Json.jstr a.name), ("action", Json.jstr a.action),
    ("cash", cash), ("pos", pos), ("value", value)]

/-- Reflection of the LLM proposal block. -/
def proposalJson (p : Proposal) : Option Json := do
  let size ← jsonOfRat p.size
  return Json.jobj [("action", Json.jstr p.action), ("size", size),
    ("rationale", Json.jstr p.rationale)]

/-- Reflection of one risk assessment. -/
def riskJson (r : RiskAssessment) : Option Json := do
  let size ← jsonOfRat r.size
  return Json.jobj [("name", Json.jstr r.name), ("approved", Json.jbool r.approved),
    ("size", size), ("comment", Json.jstr r.comment)]

/-- Reflection of the manager decision. -/
def managerJson (m : ManagerDecision) : Option Json := do
  let size ← jsonOfRat m.final_size
  return Json.jobj [("approved", Json.jbool m.approved),
    ("final_action", Json.jstr m.final_action), ("final_size", size),
    ("comment", Json.jstr m.comment)]

/-- Reflection of the LLM portfolio. -/
def portfolioJson (p : Portfolio) : Option Json := do
  let cash ← jsonOfRat p.cash
  let pos ← jsonOfRat p.pos
  let value ← jsonOfRat p.value
  return Json.jobj [("cash", cash), ("pos", pos), ("value", value)]

/-- Reflection of the `llm` object; an absent `general_analysis` key is
omitted, exactly as `JSON.stringify` drops `undefined` properties. -/
def llmJson (l : LLMSnapshot) : Option Json := do
  let prop ← proposalJson l.proposal
  let risks ← l.risk_assessments.mapM riskJson
  let mgr ← managerJson l.manager_decision
  let port ← portfolioJson l.portfolio
  let ga : List (String × Json) :=
    match l.general_analysis with
    | none => []
    | some g => [("general_analysis",
        Json.jobj [("stance", Json.jstr g.stance), ("text", Json.jstr g.text)])]
  return Json.jobj ([("bullish", Json.jstr l.bullish), ("bearish", Json.jstr l.bearish)] ++
    ga ++ [("proposal", prop), ("risk_assessments", Json.jarr risks),
      ("manager_decision", mgr), ("portfolio", port)])

/-- Reflection of a whole step snapshot. -/
def stepJson (d : StepSnapshot) : Option Json := do
  let price ← jsonOfRat d.price
  let decs ← d.decisions.mapM decisionJson
  let llm ← llmJson d.llm
  return Json.jobj [("step", Json.jnum d.step 0), ("total_steps", Json.jnum d.total_steps 0),
    ("price", price), ("news", Json.jstr d.news), ("decisions", Json.jarr decs),
    ("llm", llm)]

/-- Reflection of the accumulated `simulationHistory` array. -/
def historyJson? (h : List StepSnapshot) : Option Json :=
  (h.mapM stepJson).map Json.jarr

/-- Reflection of one trader-ledger record. -/
def ledgerRecordJson (r : LedgerRecord) : Option Json := do
  let cash ← jsonOfRat r.cash
  let position ← jsonOfRat r.position
  let value ← jsonOfRat r.value
  return Json.jobj [("step", Json.jnum r.step 0), ("action", Json.jstr r.action),
    ("cash", cash), ("position", position), ("value", value)]

/-- Reflection of the whole `traderHistory` object. -/
def traderHistoryJson? (m : List (String × List LedgerRecord)) : Option Json := do
  let fs ← m.mapM (fun p => do
    let recs ← p.2.mapM ledgerRecordJson
    return (p.1, Json.jarr recs))
  return Json.jobj fs

/-- `exportHistory()`: `JSON.stringify(simulationHistory, null, 2)` (the blob
download around it carries the string unchanged). -/
def exportHistory (h : List StepSnapshot) : Option String :=
  (historyJson? h).map stringifyPretty

/-- `exportTraderData()`: `JSON.stringify(traderHistory, null, 2)`. -/
def exportTraderData (m : List (String × List LedgerRecord)) : Option String :=
  (traderHistoryJson? m).map stringifyPretty

/-- C9: the export artifacts are lossless — serializing the simulation
history (or the trader-ledger mapping) with the 2-space pretty printer and
re-parsing the resulting text yields a structure deep-equal to the in-memory
original: exactly its JSON reflection, no field renamed, truncated or
reordered.  The reflection hypotheses hold whenever every numeric field is an
exact decimal, which is the case for every JavaScript number. -/
theorem c9_export_roundtrip (h : List StepSnapshot) (m : List (String × List LedgerRecord))
    (jh jm : Json) (hh : historyJson? h = some jh) (hm : traderHistoryJson? m = some jm) :
    exportHistory h = some (stringifyPretty jh) ∧
    jsonParse (stringifyPretty jh) = some jh ∧
    exportTraderData m = some (stringifyPretty jm) ∧
    jsonParse (stringifyPretty jm) = some jm := by
  refine ⟨?_, jsonParse_stringifyPretty jh, ?_, jsonParse_stringifyPretty jm⟩
  · rw [exportHistory, hh]
    rfl
  · rw [exportTraderData, hm]
    rfl

/-- The JSON reflection of `sampleSnap`. -/
def sampleStepJ : Json :=
  Json.jobj [("step", Json.jnum 1 0), ("total_steps", Json.jnum 10 0),
    ("price", Json.jnum 100 0), ("news", Json.jstr "steady session"),
    ("decisions", Json.jarr [Json.jobj [("name", Json.jstr "Random"),
      ("action", Json.jstr "buy"), ("cash", Json.jnum 100 0), ("pos", Json.jnum 0 0),
      ("value", Json.jnum 100 0)]]),
    ("llm", Json.jobj [("bullish", Json.jstr "b"), ("bearish", Json.jstr "r"),
      ("proposal", Json.jobj [("action", Json.jstr "buy"), ("size", Json.jnum 1 0),
        ("rationale", Json.jstr "x")]),
      ("risk_assessments", Json.jarr []),
      ("manager_decision", Json.jobj [("approved", Json.jbool true),
        ("final_action", Json.jstr "buy"), ("final_size", Json.jnum 1 0),
        ("comment", Json.jstr "ok")]),
      ("portfolio", Json.jobj [("cash", Json.jnum 100 0), ("pos", Json.jnum 0 0),
        ("value", Json.jnum 100 0)])])]

/-- The JSON reflection of the one-record `"LLM Fund"` ledger. -/
def sampleLedgerJ : Json :=
  Json.jobj [("LLM Fund", Json.jarr [Json.jobj [("step", Json.jnum 1 0),
    ("action", Json.jstr "buy"), ("cash", Json.jnum 100 0), ("position", Json.jnum 0 0),
    ("value", Json.jnum 100 0)]])]

/-- Concrete instance of `c9_export_roundtrip` at a one-snapshot history and
a one-record ledger map, hypotheses discharged by evaluation. -/
theorem c9_export_roundtrip_witness :
    exportHistory [sampleSnap] = some (stringifyPretty (Json.jarr [sampleStepJ])) ∧
    jsonParse (stringifyPretty (Json.jarr [sampleStepJ])) = some (Json.jarr [sampleStepJ]) ∧
    exportTraderData [("LLM Fund", [llmRecord 1 sampleLLM])] =
      some (stringifyPretty sampleLedgerJ) ∧
    jsonParse (stringifyPretty sampleLedgerJ) = some sampleLedgerJ :=
  c9_export_roundtrip [sampleSnap] [("LLM Fund", [llmRecord 1 sampleLLM])]
    (Json.jarr [sampleStepJ]) sampleLedgerJ rfl rfl
